import Mathlib

/-!
Verification of the team entry point-optimizer of the track/XC result
processor.  The TypeScript sources `team-entry-optimizer-simple.ts`,
`team-entry-optimizer-advanced.ts` and `result-utils.ts` are shallowly
embedded below: JavaScript `Map`s (which preserve insertion order) become
insertion-ordered association lists, the (stable) `Array.prototype.sort`
becomes a stable insertion sort parameterised by the comparator's
"must-come-before" relation, and the filesystem access of `loadRankings`
becomes an explicit optional directory listing.
-/

set_option maxRecDepth 100000

namespace TrackOpt

/-- `ResultUtils.isTrackEvent`: the closed list of timed event codes. -/
def trackEventCodes : List String :=
  ["60", "100", "200", "400", "800", "1600", "3200", "4x100", "4x200", "4x400", "4x800"]

/-- `ResultUtils.isTrackEvent eventAbbr`. -/
def isTrackEvent (eventAbbr : String) : Bool :=
  trackEventCodes.contains eventAbbr

/-- `ResultUtils.isFieldEvent eventAbbr` — everything that is not a track event. -/
def isFieldEvent (eventAbbr : String) : Bool :=
  !(isTrackEvent eventAbbr)

/-- `POINTS_TABLE[place] || 0` : 1st=8, 2nd=6, 3rd=4, 4th=2, 5th=1, default 0. -/
def POINTS_TABLE (place : Nat) : Nat :=
  if place = 1 then 8
  else if place = 2 then 6
  else if place = 3 then 4
  else if place = 4 then 2
  else if place = 5 then 1
  else 0

/-- One row of an event's ranking list: `{rank, athlete, team}`. -/
structure RankingRow where
  rank : Nat
  athlete : String
  team : String
deriving DecidableEq, Repr

/-- `EventRankingData` as pushed by `loadRankings`. -/
structure EventRankingData where
  eventAbbr : String
  eventName : String
  gender : String
  grade : String
  rankings : List RankingRow
deriving DecidableEq, Repr

/-- A category inside a persisted ranking file. -/
structure RankingCategory where
  gender : String
  grade : String
  rankings : List RankingRow
deriving DecidableEq, Repr

/-- A parsed ranking file: `{eventAbbr, event, categories}`. -/
structure RankingFile where
  eventAbbr : String
  event : String
  categories : List RankingCategory
deriving DecidableEq, Repr

/-- Insertion-ordered association list lookup (JS `Map.get`). -/
def getA {β : Type} (l : List (String × β)) (k : String) : Option β :=
  match l with
  | [] => none
  | (k', v) :: t => if k' = k then some v else getA t k

/-- Insertion-ordered association list update (JS `Map.set`): overwrites in
place when the key exists, appends otherwise. -/
def setA {β : Type} (l : List (String × β)) (k : String) (v : β) : List (String × β) :=
  match l with
  | [] => [(k, v)]
  | (k', v') :: t => if k' = k then (k, v) :: t else (k', v') :: setA t k v

/-- Stable insertion of `a` into `l`: `a` is placed before the first element
`b` such that the JS comparator would order `a` strictly before `b`
(`lt a b = true`), hence after all elements that compare equal to it. -/
def insertSorted {α : Type} (lt : α → α → Bool) (a : α) : List α → List α
  | [] => [a]
  | b :: t => if lt a b then a :: b :: t else b :: insertSorted lt a t

/-- Model of the (stable) JS `Array.prototype.sort` under a consistent
comparator: `lt a b` means the comparator returns a negative number. -/
def sortJS {α : Type} (lt : α → α → Bool) (l : List α) : List α :=
  l.foldl (fun acc a => insertSorted lt a acc) []

/-- `isValidCombination` of `SimpleTeamEntryOptimizer`. -/
def isValidCombinationSimple (events : List String) : Bool :=
  if events.length > 4 then false
  else
    let has1600 := events.contains "1600"
    let has800 := events.contains "800"
    if has1600 && has800 then
      let runningEvents := events.filter (fun e => isTrackEvent e)
      let otherRunning := runningEvents.filter (fun e => e != "1600" && e != "800")
      if otherRunning.length > 1 then false
      else if events.length = 4 then
        let fieldEvents := events.filter (fun e => isFieldEvent e)
        if fieldEvents.length = 0 then false else true
      else true
    else true

/-- `isValidCombination` of `AdvancedTeamEntryOptimizer` (textually the same
checks as the simple optimizer's). -/
def isValidCombinationAdvanced (events : List String) : Bool :=
  if events.length > 4 then false
  else
    let has1600 := events.contains "1600"
    let has800 := events.contains "800"
    if has1600 && has800 then
      let runningEvents := events.filter (fun e => isTrackEvent e)
      let otherRunning := runningEvents.filter (fun e => e != "1600" && e != "800")
      if otherRunning.length > 1 then false
      else if events.length = 4 then
        let fieldEvents := events.filter (fun e => isFieldEvent e)
        if fieldEvents.length = 0 then false else true
      else true
    else true

/-- `{rank, points}` as stored per event in the simple optimizer's
`athleteScores` inner map. -/
structure ScoreRP where
  rank : Nat
  points : Nat
deriving DecidableEq, Repr

/-- `AthleteEntry` of `optimizer-types`. -/
structure AthleteEntry where
  athlete : String
  firstName : String
  lastName : String
  events : List String
  projectedPoints : Nat
deriving DecidableEq, Repr

/-- One athlete row of an `EventEntry`. -/
structure EventAthleteRow where
  athlete : String
  projectedPlace : Nat
  projectedPoints : Nat
  currentRank : Nat
deriving DecidableEq, Repr

/-- `EventEntry` of `optimizer-types`. -/
structure EventEntry where
  event : String
  eventName : String
  athletes : List EventAthleteRow
deriving DecidableEq, Repr

/-- `OptimizationResult` of `optimizer-types`. -/
structure OptimizationResult where
  school : String
  gender : String
  grade : String
  totalProjectedPoints : Nat
  athleteEntries : List AthleteEntry
  eventBreakdown : List EventEntry
deriving DecidableEq, Repr

/-- JS `String.prototype.startsWith`, over character lists (structural). -/
def strStartsWith (s pre : String) : Bool :=
  pre.data.isPrefixOf s.data

/-- JS `String.prototype.endsWith`, over character lists (structural). -/
def strEndsWith (s suf : String) : Bool :=
  suf.data.isSuffixOf s.data

/-- `loadRankings` (identical in both optimizers): the filesystem is passed
explicitly as `none` (directory absent) or `some` named file list; a missing
directory raises, otherwise the files matching the
`event_rankings_<season>_*.json` name pattern are scanned and the category
matching the requested gender and grade (if any) is collected. -/
def loadRankings (dir : Option (List (String × RankingFile)))
    (season gender grade : String) : Except String (List EventRankingData) :=
  match dir with
  | none => .error "Rankings directory not found"
  | some files =>
    let matching := files.filter (fun f =>
      strStartsWith f.1 ("event_rankings_" ++ season ++ "_") && strEndsWith f.1 ".json")
    .ok (matching.foldl (fun rankings f =>
      match f.2.categories.find? (fun cat => cat.gender == gender && cat.grade == grade) with
      | some category =>
        rankings ++ [{ eventAbbr := f.2.eventAbbr, eventName := f.2.event,
                       gender := gender, grade := grade, rankings := category.rankings }]
      | none => rankings) [])

/-- One row of the simple optimizer's first loop: rows of the target team are
recorded in `athleteScores : Map athlete (Map event {rank, points})`. -/
def scoreStep (teamName : String) (eventData : EventRankingData)
    (acc : List (String × List (String × ScoreRP))) (ranking : RankingRow) :
    List (String × List (String × ScoreRP)) :=
  if ranking.team = teamName then
    let points := POINTS_TABLE ranking.rank
    let inner := (getA acc ranking.athlete).getD []
    setA acc ranking.athlete
      (setA inner eventData.eventAbbr { rank := ranking.rank, points := points })
  else acc

/-- The simple optimizer's first loop: build `athleteScores` from the rows
whose `team` equals `teamName`. -/
def buildAthleteScores (allRankings : List EventRankingData) (teamName : String) :
    List (String × List (String × ScoreRP)) :=
  allRankings.foldl (fun acc eventData =>
    eventData.rankings.foldl (scoreStep teamName eventData) acc) []

/-- All (event category, row) pairs of a ranking collection, in traversal
order of the two nested loops of the builders. -/
def pairsOfEd (allRankings : List EventRankingData) : List (EventRankingData × RankingRow) :=
  allRankings.flatMap (fun ed => ed.rankings.map (fun row => (ed, row)))

/-- Comparator of the simple optimizer's candidate sort: points descending,
ties by rank ascending. -/
def ltCandidate (a b : String × ScoreRP) : Bool :=
  if a.2.points != b.2.points then b.2.points < a.2.points else a.2.rank < b.2.rank

/-- One iteration of the simple optimizer's greedy selection loop: stop at 4
selected (`break`), tentatively append, keep only valid combinations. -/
def greedyStepSimple (selectedEvents : List String) (p : String × ScoreRP) : List String :=
  if selectedEvents.length ≥ 4 then selectedEvents
  else
    let testEvents := selectedEvents ++ [p.1]
    if isValidCombinationSimple testEvents then testEvents else selectedEvents

/-- The greedy selection loop of the simple optimizer. -/
def greedySelectSimple (sortedEvents : List (String × ScoreRP)) : List String :=
  sortedEvents.foldl greedyStepSimple []

/-- `eventEntries.get(event)` or a fresh `{event, eventName, athletes: []}`,
then push one athlete row (shared shape of both optimizers' breakdown fanout). -/
def pushRow (entries : List (String × EventEntry)) (ev evName : String)
    (row : EventAthleteRow) : List (String × EventEntry) :=
  let cur := (getA entries ev).getD { event := ev, eventName := evName, athletes := [] }
  setA entries ev { cur with athletes := cur.athletes ++ [row] }

/-- Display name of an event: `allRankings.find(e => e.eventAbbr === event)!.eventName`. -/
def lookupEventName (allRankings : List EventRankingData) (event : String) : String :=
  ((allRankings.find? (fun e => e.eventAbbr == event)).map (fun e => e.eventName)).getD ""

/-- The simple optimizer's per-athlete breakdown fanout over the selected events. -/
def addBreakdownSimple (allRankings : List EventRankingData) (athlete : String)
    (eventScores : List (String × ScoreRP)) (entries : List (String × EventEntry))
    (selected : List String) : List (String × EventEntry) :=
  selected.foldl (fun entries event =>
    let score := (getA eventScores event).getD { rank := 0, points := 0 }
    pushRow entries event (lookupEventName allRankings event)
      { athlete := athlete, projectedPlace := score.rank,
        projectedPoints := score.points, currentRank := score.rank }) entries

/-- JS `String.prototype.split` on a single separator character, over the
character list (structural, so that it evaluates definitionally). -/
def splitChars (sep : Char) : List Char → List (List Char)
  | [] => [[]]
  | c :: t =>
    if c = sep then [] :: splitChars sep t
    else
      match splitChars sep t with
      | [] => [[c]]
      | h :: rest => (c :: h) :: rest

/-- JS `Array.prototype.join(' ')`. -/
def joinSpace : List String → String
  | [] => ""
  | [x] => x
  | x :: rest => x ++ " " ++ joinSpace rest

/-- JS `athlete.split(' ')` destructured as `[firstName, ...lastNameParts]`,
with the last name parts re-joined with spaces. -/
def splitName (athlete : String) : String × String :=
  match (splitChars ' ' athlete.data).map (fun cs => String.mk cs) with
  | [] => ("", "")
  | f :: rest => (f, joinSpace rest)

/-- The events the simple optimizer selects for one athlete's candidate map:
sort by points descending (rank ascending on ties), then select greedily. -/
def selectedOfSimple (eventScores : List (String × ScoreRP)) : List String :=
  greedySelectSimple (sortJS ltCandidate eventScores)

/-- The `AthleteEntry` the simple optimizer builds for one athlete. -/
def entryOfSimple (p : String × List (String × ScoreRP)) : AthleteEntry :=
  let selectedEvents := selectedOfSimple p.2
  let totalPoints := selectedEvents.foldl
    (fun sum event => sum + ((getA p.2 event).getD { rank := 0, points := 0 }).points) 0
  let fl := splitName p.1
  { athlete := p.1, firstName := fl.1, lastName := fl.2,
    events := selectedEvents, projectedPoints := totalPoints }

/-- One iteration of the simple optimizer's per-athlete loop. -/
def stepSimple (allRankings : List EventRankingData)
    (acc : List AthleteEntry × List (String × EventEntry))
    (p : String × List (String × ScoreRP)) :
    List AthleteEntry × List (String × EventEntry) :=
  if (selectedOfSimple p.2).length > 0 then
    (acc.1 ++ [entryOfSimple p],
     addBreakdownSimple allRankings p.1 p.2 acc.2 (selectedOfSimple p.2))
  else acc

/-- Comparator for `athleteEntries.sort`: projected points descending. -/
def ltEntry (a b : AthleteEntry) : Bool :=
  b.projectedPoints < a.projectedPoints

/-- Comparator for `eventBreakdown.sort`: event code ascending. -/
def ltEvent (a b : EventEntry) : Bool :=
  a.event < b.event

/-- Comparator for the per-event athlete sort: projected place ascending. -/
def ltRow (a b : EventAthleteRow) : Bool :=
  a.projectedPlace < b.projectedPlace

/-- The per-athlete loop of the simple optimizer, over the whole athlete map:
the accumulated (athleteEntries, eventEntries) pair before the final sorts. -/
def builtSimple (allRankings : List EventRankingData) (teamName : String) :
    List AthleteEntry × List (String × EventEntry) :=
  (buildAthleteScores allRankings teamName).foldl (stepSimple allRankings) ([], [])

/-- The pure core of `SimpleTeamEntryOptimizer.optimize`, after the rankings
have been loaded. -/
def optimizeCoreSimple (allRankings : List EventRankingData)
    (teamName gender grade : String) : OptimizationResult :=
  { school := teamName, gender := gender, grade := grade,
    totalProjectedPoints := (sortJS ltEntry (builtSimple allRankings teamName).1).foldl
      (fun sum a => sum + a.projectedPoints) 0,
    athleteEntries := sortJS ltEntry (builtSimple allRankings teamName).1,
    eventBreakdown :=
      (sortJS ltEvent ((builtSimple allRankings teamName).2.map (fun p => p.2))).map
        (fun ee => { ee with athletes := sortJS ltRow ee.athletes }) }

/-- `SimpleTeamEntryOptimizer.optimize`. -/
def optimizeSimple (dir : Option (List (String × RankingFile)))
    (season teamName gender grade : String) : Except String OptimizationResult :=
  (loadRankings dir season gender grade).map
    (fun allRankings => optimizeCoreSimple allRankings teamName gender grade)

/-- `AthleteEventScore` of the advanced optimizer. -/
structure AthleteEventScore where
  athlete : String
  team : String
  event : String
  rank : Nat
  projectedPlace : Nat
  points : Nat
deriving DecidableEq, Repr

/-- The per-event grouping inside `predictCompetition`: rows pushed into a
`Map team (athlete list)` in ranking-list order. -/
def groupTeamAthletes (rows : List RankingRow) : List (String × List String) :=
  rows.foldl (fun teamAthletes ranking =>
    setA teamAthletes ranking.team
      ((getA teamAthletes ranking.team).getD [] ++ [ranking.athlete])) []

/-- `likelyEntries.get(athlete)` (a JS `Set` of events, modelled as a
duplicate-free list) extended with one event (`Set.add`). -/
def addLikely (likely : List (String × List String)) (athlete eventAbbr : String) :
    List (String × List String) :=
  setA likely athlete
    (if ((getA likely athlete).getD []).contains eventAbbr then (getA likely athlete).getD []
     else (getA likely athlete).getD [] ++ [eventAbbr])

/-- `AdvancedTeamEntryOptimizer.predictCompetition`: per event, per team, the
first `min(3, count)` athletes (in ranking-list order) are marked as likely to
compete in that event. -/
def predictCompetition (allRankings : List EventRankingData) :
    List (String × List String) :=
  allRankings.foldl (fun likelyEntries eventData =>
    (groupTeamAthletes eventData.rankings).foldl (fun likelyEntries p =>
      (p.2.take (min 3 p.2.length)).foldl (fun likelyEntries athlete =>
        addLikely likelyEntries athlete eventData.eventAbbr) likelyEntries) likelyEntries) []

/-- Membership of `event` in `likelyEntries.get(athlete)` (false when the
athlete is absent). -/
def inLikely (likelyEntries : List (String × List String)) (athlete event : String) : Bool :=
  match getA likelyEntries athlete with
  | some evs => evs.contains event
  | none => false

/-- `AdvancedTeamEntryOptimizer.calculateProjectedPlace`: 1 + the number of
rows ranked strictly ahead whose athlete is likely to compete in the event. -/
def calculateProjectedPlace (athlete event : String) (currentRank : Nat)
    (likelyEntries : List (String × List String)) (eventRankings : EventRankingData) : Nat :=
  (eventRankings.rankings.foldl (fun competitorsAhead ranking =>
    if ranking.rank < currentRank then
      if inLikely likelyEntries ranking.athlete event then competitorsAhead + 1
      else competitorsAhead
    else competitorsAhead) 0) + 1

/-- The `AthleteEventScore` record the advanced optimizer pushes for one
target-team row: projected place from the predictor, points from the table. -/
def optionScore (teamName : String) (likelyEntries : List (String × List String))
    (eventData : EventRankingData) (ranking : RankingRow) : AthleteEventScore :=
  let projectedPlace := calculateProjectedPlace ranking.athlete eventData.eventAbbr
    ranking.rank likelyEntries eventData
  { athlete := ranking.athlete, team := teamName, event := eventData.eventAbbr,
    rank := ranking.rank, projectedPlace := projectedPlace,
    points := POINTS_TABLE projectedPlace }

/-- One row of the advanced optimizer's first loop: rows of the target team
are recorded in `athleteOptions : Map athlete (AthleteEventScore list)`. -/
def optionStep (teamName : String) (likelyEntries : List (String × List String))
    (eventData : EventRankingData) (acc : List (String × List AthleteEventScore))
    (ranking : RankingRow) : List (String × List AthleteEventScore) :=
  if ranking.team = teamName then
    let cur := (getA acc ranking.athlete).getD []
    setA acc ranking.athlete (cur ++ [optionScore teamName likelyEntries eventData ranking])
  else acc

/-- The advanced optimizer's first loop. -/
def buildAthleteOptions (allRankings : List EventRankingData)
    (likelyEntries : List (String × List String)) (teamName : String) :
    List (String × List AthleteEventScore) :=
  allRankings.foldl (fun acc eventData =>
    eventData.rankings.foldl (optionStep teamName likelyEntries eventData) acc) []

/-- Comparator of the advanced optimizer's option sort: projected points
descending, ties by projected place ascending. -/
def ltOption (a b : AthleteEventScore) : Bool :=
  if a.points != b.points then b.points < a.points else a.projectedPlace < b.projectedPlace

/-- One iteration of the advanced optimizer's greedy selection loop: it
accumulates both the selected event codes and the corresponding score records. -/
def greedyStepAdvanced (acc : List String × List AthleteEventScore)
    (option : AthleteEventScore) : List String × List AthleteEventScore :=
  if acc.1.length ≥ 4 then acc
  else
    let testEvents := acc.1 ++ [option.event]
    if isValidCombinationAdvanced testEvents then (testEvents, acc.2 ++ [option])
    else acc

/-- The greedy selection loop of the advanced optimizer. -/
def greedySelectAdvanced (sortedOptions : List AthleteEventScore) :
    List String × List AthleteEventScore :=
  sortedOptions.foldl greedyStepAdvanced ([], [])

/-- The advanced optimizer's per-athlete breakdown fanout over the selected
score records. -/
def addBreakdownAdvanced (allRankings : List EventRankingData) (athlete : String)
    (entries : List (String × EventEntry)) (selectedScores : List AthleteEventScore) :
    List (String × EventEntry) :=
  selectedScores.foldl (fun entries score =>
    pushRow entries score.event (lookupEventName allRankings score.event)
      { athlete := athlete, projectedPlace := score.projectedPlace,
        projectedPoints := score.points, currentRank := score.rank }) entries

/-- The (events, scores) selection of the advanced optimizer for one athlete's
option list: sort by points descending (projected place ascending on ties),
then select greedily. -/
def selectedOfAdvanced (options : List AthleteEventScore) :
    List String × List AthleteEventScore :=
  greedySelectAdvanced (sortJS ltOption options)

/-- The `AthleteEntry` the advanced optimizer builds for one athlete. -/
def entryOfAdvanced (p : String × List AthleteEventScore) : AthleteEntry :=
  let sel := selectedOfAdvanced p.2
  let totalPoints := sel.2.foldl (fun sum s => sum + s.points) 0
  let fl := splitName p.1
  { athlete := p.1, firstName := fl.1, lastName := fl.2,
    events := sel.1, projectedPoints := totalPoints }

/-- One iteration of the advanced optimizer's per-athlete loop. -/
def stepAdvanced (allRankings : List EventRankingData)
    (acc : List AthleteEntry × List (String × EventEntry))
    (p : String × List AthleteEventScore) :
    List AthleteEntry × List (String × EventEntry) :=
  if (selectedOfAdvanced p.2).1.length > 0 then
    (acc.1 ++ [entryOfAdvanced p],
     addBreakdownAdvanced allRankings p.1 acc.2 (selectedOfAdvanced p.2).2)
  else acc

/-- The per-athlete loop of the advanced optimizer, over the whole option map:
the accumulated (athleteEntries, eventEntries) pair before the final sorts. -/
def builtAdvanced (allRankings : List EventRankingData) (teamName : String) :
    List AthleteEntry × List (String × EventEntry) :=
  (buildAthleteOptions allRankings (predictCompetition allRankings) teamName).foldl
    (stepAdvanced allRankings) ([], [])

/-- The pure core of `AdvancedTeamEntryOptimizer.optimize`, after the rankings
have been loaded. -/
def optimizeCoreAdvanced (allRankings : List EventRankingData)
    (teamName gender grade : String) : OptimizationResult :=
  { school := teamName, gender := gender, grade := grade,
    totalProjectedPoints := (sortJS ltEntry (builtAdvanced allRankings teamName).1).foldl
      (fun sum a => sum + a.projectedPoints) 0,
    athleteEntries := sortJS ltEntry (builtAdvanced allRankings teamName).1,
    eventBreakdown :=
      (sortJS ltEvent ((builtAdvanced allRankings teamName).2.map (fun p => p.2))).map
        (fun ee => { ee with athletes := sortJS ltRow ee.athletes }) }

/-- `AdvancedTeamEntryOptimizer.optimize`. -/
def optimizeAdvanced (dir : Option (List (String × RankingFile)))
    (season teamName gender grade : String) : Except String OptimizationResult :=
  (loadRankings dir season gender grade).map
    (fun allRankings => optimizeCoreAdvanced allRankings teamName gender grade)

/-- Sum of `f` over a list (the shape of the JS `reduce((sum, a) => sum + f a, 0)`). -/
def sumBy {α : Type} (f : α → Nat) : List α → Nat
  | [] => 0
  | a :: t => f a + sumBy f t

/-- Total projected points recorded in a breakdown accumulator. -/
def sumRows (entries : List (String × EventEntry)) : Nat :=
  sumBy (fun p => sumBy (fun r => r.projectedPoints) p.2.athletes) entries

/-- The simpler validity predicate stated by the refinement claim: at most 4
events, and when both distance events are present at most one other track
event.  (This follows the claim's words, for comparison with the source's
`isValidCombination`.) -/
def simplerValidCombination (events : List String) : Bool :=
  decide (events.length ≤ 4) &&
    (!(events.contains "1600" && events.contains "800") ||
      decide ((events.filter
        (fun e => isTrackEvent e && (e != "1600" && e != "800"))).length ≤ 1))

/-- The athlete has at least one ranking row for the target team. -/
def hasTeamRow (allRankings : List EventRankingData) (teamName athlete : String) : Prop :=
  ∃ ed ∈ allRankings, ∃ row ∈ ed.rankings, row.athlete = athlete ∧ row.team = teamName

/-- The (athlete, event) pair appears as a target-team ranking row. -/
def hasTeamRowFor (allRankings : List EventRankingData)
    (teamName athlete event : String) : Prop :=
  ∃ ed ∈ allRankings, ed.eventAbbr = event ∧
    ∃ row ∈ ed.rankings, row.athlete = athlete ∧ row.team = teamName

/-- The athletes of one team inside an event's ranking rows, in list order. -/
def teamAthleteList (rows : List RankingRow) (team : String) : List String :=
  (rows.filter (fun row => row.team = team)).map (fun row => row.athlete)

/-- A persisted ranking file with a single Boys grade-7 category. -/
def fileB7 (abbr name : String) (rows : List RankingRow) : RankingFile :=
  { eventAbbr := abbr, event := name,
    categories := [{ gender := "Boys", grade := "7", rankings := rows }] }

/-- Sample rankings directory: one athlete of team `T` ranked first in four
events (two distance events, one sprint, one field event). -/
def sampleDir : List (String × RankingFile) :=
  [("event_rankings_2025_1600.json", fileB7 "1600" "1600m"
      [{ rank := 1, athlete := "A B", team := "T" }]),
   ("event_rankings_2025_800.json", fileB7 "800" "800m"
      [{ rank := 1, athlete := "A B", team := "T" }]),
   ("event_rankings_2025_100.json", fileB7 "100" "100m"
      [{ rank := 1, athlete := "A B", team := "T" }]),
   ("event_rankings_2025_LJ.json", fileB7 "LJ" "Long Jump"
      [{ rank := 1, athlete := "A B", team := "T" }])]

/-- The ranking data loaded from `sampleDir` for Boys grade 7. -/
def sampleLoaded : List EventRankingData :=
  ((loadRankings (some sampleDir) "2025" "Boys" "7").toOption).getD []

/-- The simple optimizer's result on the sample directory. -/
def sampleResSimple : OptimizationResult :=
  optimizeCoreSimple sampleLoaded "T" "Boys" "7"

/-- The advanced optimizer's result on the sample directory. -/
def sampleResAdvanced : OptimizationResult :=
  optimizeCoreAdvanced sampleLoaded "T" "Boys" "7"

/-- The single athlete entry both optimizers produce on the sample directory. -/
def sampleEntry : AthleteEntry :=
  { athlete := "A B", firstName := "A", lastName := "B",
    events := ["1600", "800", "100", "LJ"], projectedPoints := 32 }

/-- Sample directory whose only file has no Boys grade-7 category. -/
def noMatchDir : List (String × RankingFile) :=
  [("event_rankings_2025_100.json",
    { eventAbbr := "100", event := "100m",
      categories := [{ gender := "Girls", grade := "8",
                       rankings := [{ rank := 1, athlete := "A B", team := "T" }] }] })]

/-- Sample directory whose matching category only contains another team's rows. -/
def otherTeamDir : List (String × RankingFile) :=
  [("event_rankings_2025_100.json", fileB7 "100" "100m"
      [{ rank := 1, athlete := "X Y", team := "U" }])]

/-- An event category whose only row's team differs from `SMA1` by case only. -/
def lowerCaseTeamEd : EventRankingData :=
  { eventAbbr := "100", eventName := "100m", gender := "Boys", grade := "7",
    rankings := [{ rank := 1, athlete := "A B", team := "sma1" }] }

/-- Scenario data for the predictor: five ranked athletes from three teams. -/
def predictorEd : EventRankingData :=
  { eventAbbr := "100", eventName := "100m", gender := "Boys", grade := "7",
    rankings := [{ rank := 1, athlete := "A", team := "P" },
                 { rank := 2, athlete := "B", team := "P" },
                 { rank := 3, athlete := "C", team := "Q" },
                 { rank := 4, athlete := "D", team := "Q" },
                 { rank := 5, athlete := "E", team := "R" }] }

/-! ### Association list lemmas -/

theorem getA_setA {β : Type} (l : List (String × β)) (k k' : String) (v : β) :
    getA (setA l k v) k' = if k = k' then some v else getA l k' := by
  induction l with
  | nil => by_cases h : k = k' <;> simp [setA, getA, h]
  | cons p t ih =>
    obtain ⟨k₀, v₀⟩ := p
    by_cases h0 : k₀ = k
    · subst h0
      by_cases h : k₀ = k' <;> simp [setA, getA, h]
    · by_cases h : k₀ = k'
      · subst h
        have hk : ¬ k = k₀ := fun hh => h0 hh.symm
        simp [setA, getA, h0, hk]
      · simp [setA, getA, h0, h, ih]

/-! ### Stable sort lemmas -/

theorem insertSorted_perm {α : Type} (lt : α → α → Bool) (a : α) (l : List α) :
    (insertSorted lt a l).Perm (a :: l) := by
  induction l with
  | nil => exact List.Perm.refl _
  | cons b t ih =>
    unfold insertSorted
    by_cases h : lt a b = true
    · simp [h]
    · rw [if_neg h]
      exact (ih.cons b).trans (List.Perm.swap a b t)

theorem sortJS_perm {α : Type} (lt : α → α → Bool) (l : List α) :
    (sortJS lt l).Perm l := by
  have aux : ∀ (l acc : List α),
      (l.foldl (fun acc a => insertSorted lt a acc) acc).Perm (l ++ acc) := by
    intro l
    induction l with
    | nil => intro acc; simp
    | cons a t ih =>
      intro acc
      simp only [List.foldl_cons]
      exact (ih _).trans (((insertSorted_perm lt a acc).append_left t).trans List.perm_middle)
  simpa using aux l []

theorem pairwise_insertSorted {α : Type} (lt : α → α → Bool)
    (H1 : ∀ a b, lt a b = true → lt b a = false)
    (H2 : ∀ a b c, lt a b = true → lt c b = false → lt c a = false)
    (a : α) (l : List α) (h : l.Pairwise (fun x y => lt y x = false)) :
    (insertSorted lt a l).Pairwise (fun x y => lt y x = false) := by
  induction l with
  | nil => simp [insertSorted]
  | cons b t ih =>
    rw [List.pairwise_cons] at h
    obtain ⟨hb, ht⟩ := h
    unfold insertSorted
    by_cases hab : lt a b = true
    · simp only [hab, if_true]
      refine List.pairwise_cons.mpr ⟨?_, List.pairwise_cons.mpr ⟨hb, ht⟩⟩
      intro z hz
      rcases List.mem_cons.mp hz with hzb | hz'
      · rw [hzb]; exact H1 a b hab
      · exact H2 a b z hab (hb z hz')
    · rw [if_neg hab]
      refine List.pairwise_cons.mpr ⟨?_, ih ht⟩
      intro z hz
      rcases List.mem_cons.mp ((insertSorted_perm lt a t).mem_iff.mp hz) with hza | hz'
      · subst hza; exact Bool.eq_false_iff.mpr hab
      · exact hb z hz'

theorem pairwise_sortJS {α : Type} (lt : α → α → Bool)
    (H1 : ∀ a b, lt a b = true → lt b a = false)
    (H2 : ∀ a b c, lt a b = true → lt c b = false → lt c a = false)
    (l : List α) :
    (sortJS lt l).Pairwise (fun x y => lt y x = false) := by
  have aux : ∀ (l acc : List α), acc.Pairwise (fun x y => lt y x = false) →
      (l.foldl (fun acc a => insertSorted lt a acc) acc).Pairwise
        (fun x y => lt y x = false) := by
    intro l
    induction l with
    | nil => intro acc hacc; simpa using hacc
    | cons a t ih =>
      intro acc hacc
      simp only [List.foldl_cons]
      exact ih _ (pairwise_insertSorted lt H1 H2 a acc hacc)
  exact aux l [] List.Pairwise.nil

/-! ### Sum lemmas -/

theorem sumBy_append {α : Type} (f : α → Nat) (l₁ l₂ : List α) :
    sumBy f (l₁ ++ l₂) = sumBy f l₁ + sumBy f l₂ := by
  induction l₁ with
  | nil => simp [sumBy]
  | cons a t ih => simp [sumBy, ih]; omega

theorem foldl_add_sumBy {α : Type} (f : α → Nat) (l : List α) (n : Nat) :
    l.foldl (fun s a => s + f a) n = n + sumBy f l := by
  induction l generalizing n with
  | nil => simp [sumBy]
  | cons a t ih => simp [sumBy, ih]; omega

theorem sumBy_perm {α : Type} (f : α → Nat) {l₁ l₂ : List α} (h : l₁.Perm l₂) :
    sumBy f l₁ = sumBy f l₂ := by
  induction h with
  | nil => rfl
  | cons a _ ih => simp [sumBy, ih]
  | swap a b t => simp [sumBy]; omega
  | trans _ _ ih₁ ih₂ => exact ih₁.trans ih₂

/-! ### Validity predicate lemmas -/

theorem isValidAdvanced_eq_simple :
    isValidCombinationAdvanced = isValidCombinationSimple := rfl

/-- The filter selecting "other running events" inside `isValidCombination`. -/
theorem otherRunning_eq (events : List String) :
    (events.filter (fun e => isTrackEvent e)).filter (fun e => e != "1600" && e != "800")
      = events.filter (fun e => isTrackEvent e && (e != "1600" && e != "800")) := by
  rw [List.filter_filter]
  congr 1
  funext e
  cases h1 : isTrackEvent e <;> cases h2 : (e != "1600" && e != "800") <;> simp [h1, h2]

/-- Full characterisation of `isValidCombination` as a proposition. -/
theorem isValid_iff (events : List String) :
    isValidCombinationSimple events = true ↔
      (events.length ≤ 4 ∧
        (("1600" ∈ events ∧ "800" ∈ events) →
          ((events.filter (fun e => isTrackEvent e && (e != "1600" && e != "800"))).length ≤ 1 ∧
            (events.length = 4 →
              0 < (events.filter (fun e => isFieldEvent e)).length)))) := by
  unfold isValidCombinationSimple
  by_cases hlen : events.length > 4
  · rw [if_pos hlen]
    simp
    omega
  · rw [if_neg hlen]
    by_cases hc : ("1600" ∈ events ∧ "800" ∈ events)
    · have hb : (events.contains "1600" && events.contains "800") = true :=
        Bool.and_eq_true _ _ |>.mpr ⟨List.elem_iff.mpr hc.1, List.elem_iff.mpr hc.2⟩
      rw [if_pos hb, ← otherRunning_eq]
      by_cases ho :
          ((events.filter (fun e => isTrackEvent e)).filter
            (fun e => e != "1600" && e != "800")).length > 1
      · rw [if_pos ho]
        simp only [Bool.false_eq_true, false_iff]
        intro h
        have := (h.2 hc).1
        omega
      · rw [if_neg ho]
        by_cases h4 : events.length = 4
        · rw [if_pos h4]
          by_cases hf : (events.filter (fun e => isFieldEvent e)).length = 0
          · rw [if_pos hf]
            simp only [Bool.false_eq_true, false_iff]
            intro h
            have := (h.2 hc).2 h4
            omega
          · rw [if_neg hf]
            simp only [true_iff]
            exact ⟨by omega, fun _ => ⟨by omega, fun _ => by omega⟩⟩
        · rw [if_neg h4]
          simp only [true_iff]
          exact ⟨by omega, fun _ => ⟨by omega, fun hh => absurd hh h4⟩⟩
    · have hb : (events.contains "1600" && events.contains "800") = false := by
        cases h1 : events.contains "1600" <;> cases h2 : events.contains "800" <;>
          simp_all [List.elem_iff]
      have hb' : ¬((events.contains "1600" && events.contains "800") = true) := by
        rw [hb]; exact Bool.false_ne_true
      rw [if_neg hb']
      simp only [true_iff]
      exact ⟨by omega, fun hh => absurd hh hc⟩

theorem isValid_length_le (events : List String)
    (h : isValidCombinationSimple events = true) : events.length ≤ 4 :=
  ((isValid_iff events).mp h).1

theorem isValid_false_of_long (events : List String) (h : events.length > 4) :
    isValidCombinationSimple events = false := by
  cases hv : isValidCombinationSimple events
  · rfl
  · have := isValid_length_le events hv
    omega

theorem isValid_nil : isValidCombinationSimple [] = true := by decide

theorem isValid_singleton (e : String) : isValidCombinationSimple [e] = true := by
  rw [isValid_iff]
  refine ⟨by simp, fun hc => ?_⟩
  rcases List.mem_singleton.mp hc.1 with h1
  rcases List.mem_singleton.mp hc.2 with h2
  exact absurd (h2.trans h1.symm) (by decide)

/-! ### Greedy selection lemmas -/

theorem greedyStepSimple_valid (acc : List String) (p : String × ScoreRP)
    (h : isValidCombinationSimple acc = true) :
    isValidCombinationSimple (greedyStepSimple acc p) = true := by
  unfold greedyStepSimple
  by_cases h4 : acc.length ≥ 4
  · rw [if_pos h4]; exact h
  · rw [if_neg h4]
    by_cases hv : isValidCombinationSimple (acc ++ [p.1]) = true
    · simp only [hv, if_true]
    · simp only [Bool.not_eq_true] at hv
      simp only [hv, Bool.false_eq_true, if_false]
      exact h

theorem greedyStepSimple_ne_nil (acc : List String) (p : String × ScoreRP)
    (h : acc ≠ []) : greedyStepSimple acc p ≠ [] := by
  unfold greedyStepSimple
  by_cases h4 : acc.length ≥ 4
  · rw [if_pos h4]; exact h
  · rw [if_neg h4]
    by_cases hv : isValidCombinationSimple (acc ++ [p.1]) = true
    · simp only [hv, if_true]; simp
    · simp only [Bool.not_eq_true] at hv
      simp only [hv, Bool.false_eq_true, if_false]
      exact h

theorem foldl_greedyStepSimple_valid (l : List (String × ScoreRP)) (acc : List String)
    (h : isValidCombinationSimple acc = true) :
    isValidCombinationSimple (l.foldl greedyStepSimple acc) = true := by
  induction l generalizing acc with
  | nil => exact h
  | cons p t ih => exact ih _ (greedyStepSimple_valid acc p h)

theorem greedySelectSimple_valid (l : List (String × ScoreRP)) :
    isValidCombinationSimple (greedySelectSimple l) = true :=
  foldl_greedyStepSimple_valid l [] isValid_nil

theorem foldl_greedyStepSimple_ne_nil (l : List (String × ScoreRP)) (acc : List String)
    (h : acc ≠ []) : l.foldl greedyStepSimple acc ≠ [] := by
  induction l generalizing acc with
  | nil => exact h
  | cons p t ih => exact ih _ (greedyStepSimple_ne_nil acc p h)

theorem greedyStepSimple_nil (p : String × ScoreRP) : greedyStepSimple [] p = [p.1] := by
  unfold greedyStepSimple
  rw [if_neg (by simp)]
  simp only [List.nil_append, isValid_singleton, if_true]

theorem greedySelectSimple_ne_nil (l : List (String × ScoreRP)) (h : l ≠ []) :
    greedySelectSimple l ≠ [] := by
  cases l with
  | nil => exact absurd rfl h
  | cons p t =>
    unfold greedySelectSimple
    rw [List.foldl_cons, greedyStepSimple_nil]
    exact foldl_greedyStepSimple_ne_nil t _ (by simp)

theorem greedyStepAdvanced_valid (acc : List String × List AthleteEventScore)
    (o : AthleteEventScore) (h : isValidCombinationSimple acc.1 = true) :
    isValidCombinationSimple (greedyStepAdvanced acc o).1 = true := by
  unfold greedyStepAdvanced
  by_cases h4 : acc.1.length ≥ 4
  · rw [if_pos h4]; exact h
  · rw [if_neg h4]
    rw [isValidAdvanced_eq_simple]
    by_cases hv : isValidCombinationSimple (acc.1 ++ [o.event]) = true
    · simp only [hv, if_true]
    · simp only [Bool.not_eq_true] at hv
      simp only [hv, Bool.false_eq_true, if_false]
      exact h

theorem greedyStepAdvanced_events (acc : List String × List AthleteEventScore)
    (o : AthleteEventScore) (h : acc.1 = acc.2.map (fun s => s.event)) :
    (greedyStepAdvanced acc o).1 = (greedyStepAdvanced acc o).2.map (fun s => s.event) := by
  unfold greedyStepAdvanced
  by_cases h4 : acc.1.length ≥ 4
  · rw [if_pos h4]; exact h
  · rw [if_neg h4]
    by_cases hv : isValidCombinationAdvanced (acc.1 ++ [o.event]) = true
    · simp only [hv, if_true]
      simp [h]
    · simp only [Bool.not_eq_true] at hv
      simp only [hv, Bool.false_eq_true, if_false]
      exact h

theorem greedyStepAdvanced_ne_nil (acc : List String × List AthleteEventScore)
    (o : AthleteEventScore) (h : acc.1 ≠ []) : (greedyStepAdvanced acc o).1 ≠ [] := by
  unfold greedyStepAdvanced
  by_cases h4 : acc.1.length ≥ 4
  · rw [if_pos h4]; exact h
  · rw [if_neg h4]
    by_cases hv : isValidCombinationAdvanced (acc.1 ++ [o.event]) = true
    · simp only [hv, if_true]; simp
    · simp only [Bool.not_eq_true] at hv
      simp only [hv, Bool.false_eq_true, if_false]
      exact h

theorem foldl_greedyStepAdvanced_valid (l : List AthleteEventScore)
    (acc : List String × List AthleteEventScore)
    (h : isValidCombinationSimple acc.1 = true) :
    isValidCombinationSimple (l.foldl greedyStepAdvanced acc).1 = true := by
  induction l generalizing acc with
  | nil => exact h
  | cons o t ih => exact ih _ (greedyStepAdvanced_valid acc o h)

theorem greedySelectAdvanced_valid (l : List AthleteEventScore) :
    isValidCombinationSimple (greedySelectAdvanced l).1 = true :=
  foldl_greedyStepAdvanced_valid l ([], []) isValid_nil

theorem foldl_greedyStepAdvanced_events (l : List AthleteEventScore)
    (acc : List String × List AthleteEventScore)
    (h : acc.1 = acc.2.map (fun s => s.event)) :
    (l.foldl greedyStepAdvanced acc).1
      = (l.foldl greedyStepAdvanced acc).2.map (fun s => s.event) := by
  induction l generalizing acc with
  | nil => exact h
  | cons o t ih => exact ih _ (greedyStepAdvanced_events acc o h)

theorem greedySelectAdvanced_events (l : List AthleteEventScore) :
    (greedySelectAdvanced l).1 = (greedySelectAdvanced l).2.map (fun s => s.event) :=
  foldl_greedyStepAdvanced_events l ([], []) rfl

theorem foldl_greedyStepAdvanced_ne_nil (l : List AthleteEventScore)
    (acc : List String × List AthleteEventScore) (h : acc.1 ≠ []) :
    (l.foldl greedyStepAdvanced acc).1 ≠ [] := by
  induction l generalizing acc with
  | nil => exact h
  | cons o t ih => exact ih _ (greedyStepAdvanced_ne_nil acc o h)

theorem greedyStepAdvanced_nil (o : AthleteEventScore) :
    greedyStepAdvanced ([], []) o = ([o.event], [o]) := by
  unfold greedyStepAdvanced
  rw [if_neg (by simp)]
  simp only [isValidAdvanced_eq_simple, List.nil_append, isValid_singleton, if_true]

theorem greedySelectAdvanced_ne_nil (l : List AthleteEventScore) (h : l ≠ []) :
    (greedySelectAdvanced l).1 ≠ [] := by
  cases l with
  | nil => exact absurd rfl h
  | cons o t =>
    unfold greedySelectAdvanced
    rw [List.foldl_cons, greedyStepAdvanced_nil]
    exact foldl_greedyStepAdvanced_ne_nil t _ (by simp)

/-! ### Builder characterisation lemmas -/

theorem getA_isSome_setA {β : Type} (l : List (String × β)) (k k' : String) (v : β) :
    (getA (setA l k v) k').isSome = true ↔ k = k' ∨ (getA l k').isSome = true := by
  rw [getA_setA]
  by_cases h : k = k' <;> simp [h]

theorem setA_ne_nil {β : Type} (l : List (String × β)) (k : String) (v : β) :
    setA l k v ≠ [] := by
  cases l with
  | nil => simp [setA]
  | cons q t =>
    obtain ⟨k0, v0⟩ := q
    unfold setA
    by_cases h : k0 = k
    · rw [if_pos h]; simp
    · rw [if_neg h]; simp

theorem mem_setA {β : Type} (l : List (String × β)) (k : String) (v : β)
    (p : String × β) (h : p ∈ setA l k v) : p ∈ l ∨ p = (k, v) := by
  induction l with
  | nil =>
    unfold setA at h
    right
    simpa using h
  | cons q t ih =>
    obtain ⟨k0, v0⟩ := q
    unfold setA at h
    by_cases hk : k0 = k
    · rw [if_pos hk] at h
      rcases List.mem_cons.mp h with h1 | h2
      · right; exact h1
      · left; exact List.mem_cons_of_mem _ h2
    · rw [if_neg hk] at h
      rcases List.mem_cons.mp h with h1 | h2
      · left; rw [h1]; exact List.mem_cons_self _ _
      · rcases ih h2 with h3 | h3
        · left; exact List.mem_cons_of_mem _ h3
        · right; exact h3

theorem keys_setA {β : Type} (l : List (String × β)) (k : String) (v : β) :
    (setA l k v).map Prod.fst
      = if k ∈ l.map Prod.fst then l.map Prod.fst else l.map Prod.fst ++ [k] := by
  induction l with
  | nil => simp [setA]
  | cons q t ih =>
    obtain ⟨k0, v0⟩ := q
    unfold setA
    by_cases hk : k0 = k
    · rw [if_pos hk]
      subst hk
      simp
    · rw [if_neg hk]
      have hne : ¬ k = k0 := fun hh => hk hh.symm
      by_cases hmem : k ∈ t.map Prod.fst
      · simp [ih, hmem, hne]
      · simp [ih, hmem, hne]

theorem nodup_keys_setA {β : Type} (l : List (String × β)) (k : String) (v : β)
    (h : (l.map Prod.fst).Nodup) : ((setA l k v).map Prod.fst).Nodup := by
  rw [keys_setA]
  by_cases hmem : k ∈ l.map Prod.fst
  · rw [if_pos hmem]; exact h
  · rw [if_neg hmem]
    rw [List.nodup_append]
    exact ⟨h, List.nodup_singleton _, by
      intro x hx hx'
      rw [List.mem_singleton.mp hx'] at hx
      exact hmem hx⟩

theorem foldl_pairsOfEd {γ : Type} (f : EventRankingData → γ → RankingRow → γ)
    (R : List EventRankingData) (acc : γ) :
    R.foldl (fun acc ed => ed.rankings.foldl (f ed) acc) acc
      = (pairsOfEd R).foldl (fun acc q => f q.1 acc q.2) acc := by
  induction R generalizing acc with
  | nil => rfl
  | cons ed rest ih =>
    have hp : pairsOfEd (ed :: rest)
        = (ed.rankings.map (fun row => (ed, row))) ++ pairsOfEd rest := by
      simp [pairsOfEd]
    rw [List.foldl_cons, ih, hp, List.foldl_append, List.foldl_map]

theorem mem_pairsOfEd (R : List EventRankingData) (q : EventRankingData × RankingRow) :
    q ∈ pairsOfEd R ↔ ∃ ed ∈ R, ∃ row ∈ ed.rankings, q = (ed, row) := by
  simp only [pairsOfEd, List.mem_flatMap, List.mem_map]
  constructor
  · rintro ⟨ed, hed, row, hrow, hq⟩
    exact ⟨ed, hed, row, hrow, hq.symm⟩
  · rintro ⟨ed, hed, row, hrow, hq⟩
    exact ⟨ed, hed, row, hrow, hq.symm⟩

theorem scoreStep_eq_pos (t : String) (q : EventRankingData × RankingRow)
    (acc : List (String × List (String × ScoreRP))) (hteam : q.2.team = t) :
    scoreStep t q.1 acc q.2
      = setA acc q.2.athlete (setA ((getA acc q.2.athlete).getD []) q.1.eventAbbr
          { rank := q.2.rank, points := POINTS_TABLE q.2.rank }) := by
  unfold scoreStep
  rw [if_pos hteam]

theorem scoreStep_eq_neg (t : String) (q : EventRankingData × RankingRow)
    (acc : List (String × List (String × ScoreRP))) (hteam : ¬ q.2.team = t) :
    scoreStep t q.1 acc q.2 = acc := by
  unfold scoreStep
  rw [if_neg hteam]

theorem getA_foldl_scoreStep (t : String) (pairs : List (EventRankingData × RankingRow))
    (acc : List (String × List (String × ScoreRP))) (a : String) :
    (getA (pairs.foldl (fun acc q => scoreStep t q.1 acc q.2) acc) a).isSome = true ↔
      (getA acc a).isSome = true ∨ ∃ q ∈ pairs, q.2.athlete = a ∧ q.2.team = t := by
  induction pairs generalizing acc with
  | nil => simp
  | cons q rest ih =>
    rw [List.foldl_cons, ih]
    by_cases hteam : q.2.team = t
    · rw [scoreStep_eq_pos t q acc hteam, getA_isSome_setA]
      constructor
      · rintro ((hqa | hacc) | ⟨q', hq', hP⟩)
        · exact Or.inr ⟨q, List.mem_cons_self _ _, hqa, hteam⟩
        · exact Or.inl hacc
        · exact Or.inr ⟨q', List.mem_cons_of_mem _ hq', hP⟩
      · rintro (h | ⟨q', hq', hP1, hP2⟩)
        · exact Or.inl (Or.inr h)
        · rcases List.mem_cons.mp hq' with hq1 | hq2
          · rw [hq1] at hP1
            exact Or.inl (Or.inl hP1)
          · exact Or.inr ⟨q', hq2, hP1, hP2⟩
    · rw [scoreStep_eq_neg t q acc hteam]
      constructor
      · rintro (h | ⟨q', hq', hP⟩)
        · exact Or.inl h
        · exact Or.inr ⟨q', List.mem_cons_of_mem _ hq', hP⟩
      · rintro (h | ⟨q', hq', hP1, hP2⟩)
        · exact Or.inl h
        · rcases List.mem_cons.mp hq' with hq1 | hq2
          · exact absurd (hq1 ▸ hP2) hteam
          · exact Or.inr ⟨q', hq2, hP1, hP2⟩

theorem cand_event_foldl_scoreStep (t : String)
    (pairs : List (EventRankingData × RankingRow))
    (acc : List (String × List (String × ScoreRP))) (a e : String) :
    (getA ((getA (pairs.foldl (fun acc q => scoreStep t q.1 acc q.2) acc) a).getD []) e).isSome
        = true ↔
      (getA ((getA acc a).getD []) e).isSome = true ∨
        ∃ q ∈ pairs, q.1.eventAbbr = e ∧ q.2.athlete = a ∧ q.2.team = t := by
  induction pairs generalizing acc with
  | nil => simp
  | cons q rest ih =>
    rw [List.foldl_cons, ih]
    by_cases hteam : q.2.team = t
    · rw [scoreStep_eq_pos t q acc hteam]
      by_cases hath : q.2.athlete = a
      · rw [getA_setA, if_pos hath, Option.getD_some, hath, getA_isSome_setA]
        constructor
        · rintro ((habbr | hbase) | ⟨q', hq', hP⟩)
          · exact Or.inr ⟨q, List.mem_cons_self _ _, habbr, hath, hteam⟩
          · exact Or.inl hbase
          · exact Or.inr ⟨q', List.mem_cons_of_mem _ hq', hP⟩
        · rintro (h | ⟨q', hq', hP1, hP2, hP3⟩)
          · exact Or.inl (Or.inr h)
          · rcases List.mem_cons.mp hq' with hq1 | hq2
            · rw [hq1] at hP1
              exact Or.inl (Or.inl hP1)
            · exact Or.inr ⟨q', hq2, hP1, hP2, hP3⟩
      · rw [getA_setA, if_neg hath]
        constructor
        · rintro (h | ⟨q', hq', hP⟩)
          · exact Or.inl h
          · exact Or.inr ⟨q', List.mem_cons_of_mem _ hq', hP⟩
        · rintro (h | ⟨q', hq', hP1, hP2, hP3⟩)
          · exact Or.inl h
          · rcases List.mem_cons.mp hq' with hq1 | hq2
            · exact absurd (hq1 ▸ hP2) hath
            · exact Or.inr ⟨q', hq2, hP1, hP2, hP3⟩
    · rw [scoreStep_eq_neg t q acc hteam]
      constructor
      · rintro (h | ⟨q', hq', hP⟩)
        · exact Or.inl h
        · exact Or.inr ⟨q', List.mem_cons_of_mem _ hq', hP⟩
      · rintro (h | ⟨q', hq', hP1, hP2, hP3⟩)
        · exact Or.inl h
        · rcases List.mem_cons.mp hq' with hq1 | hq2
          · exact absurd (hq1 ▸ hP3) hteam
          · exact Or.inr ⟨q', hq2, hP1, hP2, hP3⟩

theorem optionStep_eq_pos (t : String) (le : List (String × List String))
    (q : EventRankingData × RankingRow) (acc : List (String × List AthleteEventScore))
    (hteam : q.2.team = t) :
    optionStep t le q.1 acc q.2
      = setA acc q.2.athlete
          ((getA acc q.2.athlete).getD [] ++ [optionScore t le q.1 q.2]) := by
  unfold optionStep
  rw [if_pos hteam]

theorem optionStep_eq_neg (t : String) (le : List (String × List String))
    (q : EventRankingData × RankingRow) (acc : List (String × List AthleteEventScore))
    (hteam : ¬ q.2.team = t) :
    optionStep t le q.1 acc q.2 = acc := by
  unfold optionStep
  rw [if_neg hteam]

theorem getA_foldl_optionStep (t : String) (le : List (String × List String))
    (pairs : List (EventRankingData × RankingRow))
    (acc : List (String × List AthleteEventScore)) (a : String) :
    (getA (pairs.foldl (fun acc q => optionStep t le q.1 acc q.2) acc) a).isSome = true ↔
      (getA acc a).isSome = true ∨ ∃ q ∈ pairs, q.2.athlete = a ∧ q.2.team = t := by
  induction pairs generalizing acc with
  | nil => simp
  | cons q rest ih =>
    rw [List.foldl_cons, ih]
    by_cases hteam : q.2.team = t
    · rw [optionStep_eq_pos t le q acc hteam, getA_isSome_setA]
      constructor
      · rintro ((hqa | hacc) | ⟨q', hq', hP⟩)
        · exact Or.inr ⟨q, List.mem_cons_self _ _, hqa, hteam⟩
        · exact Or.inl hacc
        · exact Or.inr ⟨q', List.mem_cons_of_mem _ hq', hP⟩
      · rintro (h | ⟨q', hq', hP1, hP2⟩)
        · exact Or.inl (Or.inr h)
        · rcases List.mem_cons.mp hq' with hq1 | hq2
          · rw [hq1] at hP1
            exact Or.inl (Or.inl hP1)
          · exact Or.inr ⟨q', hq2, hP1, hP2⟩
    · rw [optionStep_eq_neg t le q acc hteam]
      constructor
      · rintro (h | ⟨q', hq', hP⟩)
        · exact Or.inl h
        · exact Or.inr ⟨q', List.mem_cons_of_mem _ hq', hP⟩
      · rintro (h | ⟨q', hq', hP1, hP2⟩)
        · exact Or.inl h
        · rcases List.mem_cons.mp hq' with hq1 | hq2
          · exact absurd (hq1 ▸ hP2) hteam
          · exact Or.inr ⟨q', hq2, hP1, hP2⟩

theorem option_event_foldl_optionStep (t : String) (le : List (String × List String))
    (pairs : List (EventRankingData × RankingRow))
    (acc : List (String × List AthleteEventScore)) (a e : String) :
    (∃ s ∈ (getA (pairs.foldl (fun acc q => optionStep t le q.1 acc q.2) acc) a).getD [],
        s.event = e) ↔
      (∃ s ∈ (getA acc a).getD [], s.event = e) ∨
        ∃ q ∈ pairs, q.1.eventAbbr = e ∧ q.2.athlete = a ∧ q.2.team = t := by
  induction pairs generalizing acc with
  | nil => simp
  | cons q rest ih =>
    rw [List.foldl_cons, ih]
    by_cases hteam : q.2.team = t
    · rw [optionStep_eq_pos t le q acc hteam]
      by_cases hath : q.2.athlete = a
      · rw [getA_setA, if_pos hath, Option.getD_some, hath]
        constructor
        · rintro (⟨s, hs, hse⟩ | ⟨q', hq', hP⟩)
          · rcases List.mem_append.mp hs with hs1 | hs2
            · exact Or.inl ⟨s, hs1, hse⟩
            · rw [List.mem_singleton.mp hs2] at hse
              exact Or.inr ⟨q, List.mem_cons_self _ _, hse, hath, hteam⟩
          · exact Or.inr ⟨q', List.mem_cons_of_mem _ hq', hP⟩
        · rintro (⟨s, hs, hse⟩ | ⟨q', hq', hP1, hP2, hP3⟩)
          · exact Or.inl ⟨s, List.mem_append_left _ hs, hse⟩
          · rcases List.mem_cons.mp hq' with hq1 | hq2
            · refine Or.inl ⟨optionScore t le q.1 q.2,
                List.mem_append_right _ (List.mem_singleton_self _), ?_⟩
              rw [hq1] at hP1
              exact hP1
            · exact Or.inr ⟨q', hq2, hP1, hP2, hP3⟩
      · rw [getA_setA, if_neg hath]
        constructor
        · rintro (h | ⟨q', hq', hP⟩)
          · exact Or.inl h
          · exact Or.inr ⟨q', List.mem_cons_of_mem _ hq', hP⟩
        · rintro (h | ⟨q', hq', hP1, hP2, hP3⟩)
          · exact Or.inl h
          · rcases List.mem_cons.mp hq' with hq1 | hq2
            · exact absurd (hq1 ▸ hP2) hath
            · exact Or.inr ⟨q', hq2, hP1, hP2, hP3⟩
    · rw [optionStep_eq_neg t le q acc hteam]
      constructor
      · rintro (h | ⟨q', hq', hP⟩)
        · exact Or.inl h
        · exact Or.inr ⟨q', List.mem_cons_of_mem _ hq', hP⟩
      · rintro (h | ⟨q', hq', hP1, hP2, hP3⟩)
        · exact Or.inl h
        · rcases List.mem_cons.mp hq' with hq1 | hq2
          · exact absurd (hq1 ▸ hP3) hteam
          · exact Or.inr ⟨q', hq2, hP1, hP2, hP3⟩

theorem getA_mem {β : Type} (l : List (String × β)) (k : String) (v : β)
    (h : getA l k = some v) : (k, v) ∈ l := by
  induction l with
  | nil => exact absurd h (by simp [getA])
  | cons q t ih =>
    obtain ⟨k0, v0⟩ := q
    unfold getA at h
    by_cases hk : k0 = k
    · rw [if_pos hk] at h
      rw [Option.some_inj] at h
      rw [← hk, ← h]
      exact List.mem_cons_self _ _
    · rw [if_neg hk] at h
      exact List.mem_cons_of_mem _ (ih h)

theorem mem_getA_of_nodup {β : Type} (l : List (String × β)) (k : String) (v : β)
    (hnd : (l.map Prod.fst).Nodup) (h : (k, v) ∈ l) : getA l k = some v := by
  induction l with
  | nil => exact absurd h (by simp)
  | cons q t ih =>
    obtain ⟨k0, v0⟩ := q
    rw [List.map_cons, List.nodup_cons] at hnd
    rcases List.mem_cons.mp h with h1 | h2
    · rw [Prod.mk.injEq] at h1
      unfold getA
      rw [if_pos h1.1.symm, h1.2]
    · unfold getA
      by_cases hk : k0 = k
      · exfalso
        apply hnd.1
        rw [hk]
        exact List.mem_map.mpr ⟨(k, v), h2, rfl⟩
      · rw [if_neg hk]
        exact ih hnd.2 h2

theorem values_ne_nil_foldl_scoreStep (t : String)
    (pairs : List (EventRankingData × RankingRow))
    (acc : List (String × List (String × ScoreRP)))
    (hacc : ∀ p ∈ acc, p.2 ≠ []) :
    ∀ p ∈ pairs.foldl (fun acc q => scoreStep t q.1 acc q.2) acc, p.2 ≠ [] := by
  induction pairs generalizing acc with
  | nil => exact hacc
  | cons q rest ih =>
    rw [List.foldl_cons]
    apply ih
    intro p hp
    by_cases hteam : q.2.team = t
    · rw [scoreStep_eq_pos t q acc hteam] at hp
      rcases mem_setA _ _ _ _ hp with h1 | h2
      · exact hacc p h1
      · rw [h2]
        exact setA_ne_nil _ _ _
    · rw [scoreStep_eq_neg t q acc hteam] at hp
      exact hacc p hp

theorem values_ne_nil_foldl_optionStep (t : String) (le : List (String × List String))
    (pairs : List (EventRankingData × RankingRow))
    (acc : List (String × List AthleteEventScore))
    (hacc : ∀ p ∈ acc, p.2 ≠ []) :
    ∀ p ∈ pairs.foldl (fun acc q => optionStep t le q.1 acc q.2) acc, p.2 ≠ [] := by
  induction pairs generalizing acc with
  | nil => exact hacc
  | cons q rest ih =>
    rw [List.foldl_cons]
    apply ih
    intro p hp
    by_cases hteam : q.2.team = t
    · rw [optionStep_eq_pos t le q acc hteam] at hp
      rcases mem_setA _ _ _ _ hp with h1 | h2
      · exact hacc p h1
      · rw [h2]
        simp
    · rw [optionStep_eq_neg t le q acc hteam] at hp
      exact hacc p hp

theorem nodup_keys_foldl_scoreStep (t : String)
    (pairs : List (EventRankingData × RankingRow))
    (acc : List (String × List (String × ScoreRP)))
    (hacc : (acc.map Prod.fst).Nodup) :
    ((pairs.foldl (fun acc q => scoreStep t q.1 acc q.2) acc).map Prod.fst).Nodup := by
  induction pairs generalizing acc with
  | nil => exact hacc
  | cons q rest ih =>
    rw [List.foldl_cons]
    apply ih
    by_cases hteam : q.2.team = t
    · rw [scoreStep_eq_pos t q acc hteam]
      exact nodup_keys_setA _ _ _ hacc
    · rw [scoreStep_eq_neg t q acc hteam]
      exact hacc

theorem nodup_keys_foldl_optionStep (t : String) (le : List (String × List String))
    (pairs : List (EventRankingData × RankingRow))
    (acc : List (String × List AthleteEventScore))
    (hacc : (acc.map Prod.fst).Nodup) :
    ((pairs.foldl (fun acc q => optionStep t le q.1 acc q.2) acc).map Prod.fst).Nodup := by
  induction pairs generalizing acc with
  | nil => exact hacc
  | cons q rest ih =>
    rw [List.foldl_cons]
    apply ih
    by_cases hteam : q.2.team = t
    · rw [optionStep_eq_pos t le q acc hteam]
      exact nodup_keys_setA _ _ _ hacc
    · rw [optionStep_eq_neg t le q acc hteam]
      exact hacc

theorem buildAthleteScores_eq_pairs (R : List EventRankingData) (t : String) :
    buildAthleteScores R t
      = (pairsOfEd R).foldl (fun acc q => scoreStep t q.1 acc q.2) [] := by
  unfold buildAthleteScores
  exact foldl_pairsOfEd (scoreStep t) R []

theorem buildAthleteOptions_eq_pairs (R : List EventRankingData)
    (le : List (String × List String)) (t : String) :
    buildAthleteOptions R le t
      = (pairsOfEd R).foldl (fun acc q => optionStep t le q.1 acc q.2) [] := by
  unfold buildAthleteOptions
  exact foldl_pairsOfEd (optionStep t le) R []

theorem hasTeamRow_iff_pairs (R : List EventRankingData) (t a : String) :
    hasTeamRow R t a ↔ ∃ q ∈ pairsOfEd R, q.2.athlete = a ∧ q.2.team = t := by
  unfold hasTeamRow
  constructor
  · rintro ⟨ed, hed, row, hrow, h1, h2⟩
    exact ⟨(ed, row), (mem_pairsOfEd R _).mpr ⟨ed, hed, row, hrow, rfl⟩, h1, h2⟩
  · rintro ⟨q, hq, h1, h2⟩
    rcases (mem_pairsOfEd R q).mp hq with ⟨ed, hed, row, hrow, hq'⟩
    rw [hq'] at h1 h2
    exact ⟨ed, hed, row, hrow, h1, h2⟩

theorem hasTeamRowFor_iff_pairs (R : List EventRankingData) (t a e : String) :
    hasTeamRowFor R t a e
      ↔ ∃ q ∈ pairsOfEd R, q.1.eventAbbr = e ∧ q.2.athlete = a ∧ q.2.team = t := by
  unfold hasTeamRowFor
  constructor
  · rintro ⟨ed, hed, habbr, row, hrow, h1, h2⟩
    exact ⟨(ed, row), (mem_pairsOfEd R _).mpr ⟨ed, hed, row, hrow, rfl⟩, habbr, h1, h2⟩
  · rintro ⟨q, hq, habbr, h1, h2⟩
    rcases (mem_pairsOfEd R q).mp hq with ⟨ed, hed, row, hrow, hq'⟩
    rw [hq'] at habbr h1 h2
    exact ⟨ed, hed, habbr, row, hrow, h1, h2⟩

theorem athleteScores_key_iff (R : List EventRankingData) (t a : String) :
    (getA (buildAthleteScores R t) a).isSome = true ↔ hasTeamRow R t a := by
  rw [buildAthleteScores_eq_pairs, getA_foldl_scoreStep, hasTeamRow_iff_pairs]
  simp [getA]

theorem athleteScores_event_iff (R : List EventRankingData) (t a e : String) :
    (getA ((getA (buildAthleteScores R t) a).getD []) e).isSome = true
      ↔ hasTeamRowFor R t a e := by
  rw [buildAthleteScores_eq_pairs, cand_event_foldl_scoreStep, hasTeamRowFor_iff_pairs]
  simp [getA]

theorem athleteOptions_key_iff (R : List EventRankingData)
    (le : List (String × List String)) (t a : String) :
    (getA (buildAthleteOptions R le t) a).isSome = true ↔ hasTeamRow R t a := by
  rw [buildAthleteOptions_eq_pairs, getA_foldl_optionStep, hasTeamRow_iff_pairs]
  simp [getA]

theorem athleteOptions_event_iff (R : List EventRankingData)
    (le : List (String × List String)) (t a e : String) :
    (∃ s ∈ (getA (buildAthleteOptions R le t) a).getD [], s.event = e)
      ↔ hasTeamRowFor R t a e := by
  rw [buildAthleteOptions_eq_pairs, option_event_foldl_optionStep, hasTeamRowFor_iff_pairs]
  simp [getA]

theorem athleteScores_values_ne_nil (R : List EventRankingData) (t : String) :
    ∀ p ∈ buildAthleteScores R t, p.2 ≠ [] := by
  rw [buildAthleteScores_eq_pairs]
  exact values_ne_nil_foldl_scoreStep t _ [] (by simp)

theorem athleteOptions_values_ne_nil (R : List EventRankingData)
    (le : List (String × List String)) (t : String) :
    ∀ p ∈ buildAthleteOptions R le t, p.2 ≠ [] := by
  rw [buildAthleteOptions_eq_pairs]
  exact values_ne_nil_foldl_optionStep t le _ [] (by simp)

theorem athleteScores_nodup_keys (R : List EventRankingData) (t : String) :
    ((buildAthleteScores R t).map Prod.fst).Nodup := by
  rw [buildAthleteScores_eq_pairs]
  exact nodup_keys_foldl_scoreStep t _ [] (by simp)

theorem athleteOptions_nodup_keys (R : List EventRankingData)
    (le : List (String × List String)) (t : String) :
    ((buildAthleteOptions R le t).map Prod.fst).Nodup := by
  rw [buildAthleteOptions_eq_pairs]
  exact nodup_keys_foldl_optionStep t le _ [] (by simp)

/-! ### Per-athlete loop lemmas -/

theorem entryOfSimple_athlete (p : String × List (String × ScoreRP)) :
    (entryOfSimple p).athlete = p.1 := rfl

theorem entryOfSimple_events (p : String × List (String × ScoreRP)) :
    (entryOfSimple p).events = selectedOfSimple p.2 := rfl

theorem entryOfAdvanced_athlete (p : String × List AthleteEventScore) :
    (entryOfAdvanced p).athlete = p.1 := rfl

theorem entryOfAdvanced_events (p : String × List AthleteEventScore) :
    (entryOfAdvanced p).events = (selectedOfAdvanced p.2).1 := rfl

theorem stepSimple_eq_pos (R : List EventRankingData)
    (acc : List AthleteEntry × List (String × EventEntry))
    (p : String × List (String × ScoreRP)) (h : (selectedOfSimple p.2).length > 0) :
    stepSimple R acc p
      = (acc.1 ++ [entryOfSimple p],
         addBreakdownSimple R p.1 p.2 acc.2 (selectedOfSimple p.2)) := by
  unfold stepSimple
  rw [if_pos h]

theorem stepSimple_eq_neg (R : List EventRankingData)
    (acc : List AthleteEntry × List (String × EventEntry))
    (p : String × List (String × ScoreRP)) (h : ¬ (selectedOfSimple p.2).length > 0) :
    stepSimple R acc p = acc := by
  unfold stepSimple
  rw [if_neg h]

theorem stepAdvanced_eq_pos (R : List EventRankingData)
    (acc : List AthleteEntry × List (String × EventEntry))
    (p : String × List AthleteEventScore) (h : (selectedOfAdvanced p.2).1.length > 0) :
    stepAdvanced R acc p
      = (acc.1 ++ [entryOfAdvanced p],
         addBreakdownAdvanced R p.1 acc.2 (selectedOfAdvanced p.2).2) := by
  unfold stepAdvanced
  rw [if_pos h]

theorem stepAdvanced_eq_neg (R : List EventRankingData)
    (acc : List AthleteEntry × List (String × EventEntry))
    (p : String × List AthleteEventScore) (h : ¬ (selectedOfAdvanced p.2).1.length > 0) :
    stepAdvanced R acc p = acc := by
  unfold stepAdvanced
  rw [if_neg h]

theorem stepSimple_mono (R : List EventRankingData)
    (acc : List AthleteEntry × List (String × EventEntry))
    (p : String × List (String × ScoreRP)) (x : AthleteEntry) (h : x ∈ acc.1) :
    x ∈ (stepSimple R acc p).1 := by
  unfold stepSimple
  by_cases hs : (selectedOfSimple p.2).length > 0
  · rw [if_pos hs]
    exact List.mem_append_left _ h
  · rw [if_neg hs]
    exact h

theorem foldl_stepSimple_mono (R : List EventRankingData)
    (l : List (String × List (String × ScoreRP)))
    (acc : List AthleteEntry × List (String × EventEntry)) (x : AthleteEntry)
    (h : x ∈ acc.1) : x ∈ (l.foldl (stepSimple R) acc).1 := by
  induction l generalizing acc with
  | nil => exact h
  | cons q rest ih => exact ih _ (stepSimple_mono R acc q x h)

theorem mem_foldl_stepSimple (R : List EventRankingData)
    (l : List (String × List (String × ScoreRP)))
    (acc : List AthleteEntry × List (String × EventEntry)) (x : AthleteEntry)
    (h : x ∈ (l.foldl (stepSimple R) acc).1) :
    x ∈ acc.1 ∨ ∃ p ∈ l, x = entryOfSimple p ∧ selectedOfSimple p.2 ≠ [] := by
  induction l generalizing acc with
  | nil => exact Or.inl h
  | cons q rest ih =>
    rw [List.foldl_cons] at h
    rcases ih _ h with h1 | ⟨p, hp, hx⟩
    · unfold stepSimple at h1
      by_cases hs : (selectedOfSimple q.2).length > 0
      · rw [if_pos hs] at h1
        rcases List.mem_append.mp h1 with h2 | h2
        · exact Or.inl h2
        · refine Or.inr ⟨q, List.mem_cons_self _ _, List.mem_singleton.mp h2, ?_⟩
          intro hnil
          rw [hnil] at hs
          simp at hs
      · rw [if_neg hs] at h1
        exact Or.inl h1
    · exact Or.inr ⟨p, List.mem_cons_of_mem _ hp, hx⟩

theorem exists_entry_foldl_stepSimple (R : List EventRankingData)
    (l : List (String × List (String × ScoreRP)))
    (acc : List AthleteEntry × List (String × EventEntry))
    (p : String × List (String × ScoreRP)) (hp : p ∈ l)
    (hsel : selectedOfSimple p.2 ≠ []) :
    ∃ x ∈ (l.foldl (stepSimple R) acc).1, x.athlete = p.1 := by
  induction l generalizing acc with
  | nil => exact absurd hp (by simp)
  | cons q rest ih =>
    rw [List.foldl_cons]
    rcases List.mem_cons.mp hp with h1 | h2
    · refine ⟨entryOfSimple p, ?_, entryOfSimple_athlete p⟩
      apply foldl_stepSimple_mono
      rw [← h1, stepSimple_eq_pos R acc p (List.length_pos.mpr hsel)]
      exact List.mem_append_right _ (List.mem_singleton_self _)
    · exact ih _ h2

theorem stepAdvanced_mono (R : List EventRankingData)
    (acc : List AthleteEntry × List (String × EventEntry))
    (p : String × List AthleteEventScore) (x : AthleteEntry) (h : x ∈ acc.1) :
    x ∈ (stepAdvanced R acc p).1 := by
  unfold stepAdvanced
  by_cases hs : (selectedOfAdvanced p.2).1.length > 0
  · rw [if_pos hs]
    exact List.mem_append_left _ h
  · rw [if_neg hs]
    exact h

theorem foldl_stepAdvanced_mono (R : List EventRankingData)
    (l : List (String × List AthleteEventScore))
    (acc : List AthleteEntry × List (String × EventEntry)) (x : AthleteEntry)
    (h : x ∈ acc.1) : x ∈ (l.foldl (stepAdvanced R) acc).1 := by
  induction l generalizing acc with
  | nil => exact h
  | cons q rest ih => exact ih _ (stepAdvanced_mono R acc q x h)

theorem mem_foldl_stepAdvanced (R : List EventRankingData)
    (l : List (String × List AthleteEventScore))
    (acc : List AthleteEntry × List (String × EventEntry)) (x : AthleteEntry)
    (h : x ∈ (l.foldl (stepAdvanced R) acc).1) :
    x ∈ acc.1 ∨ ∃ p ∈ l, x = entryOfAdvanced p ∧ (selectedOfAdvanced p.2).1 ≠ [] := by
  induction l generalizing acc with
  | nil => exact Or.inl h
  | cons q rest ih =>
    rw [List.foldl_cons] at h
    rcases ih _ h with h1 | ⟨p, hp, hx⟩
    · unfold stepAdvanced at h1
      by_cases hs : (selectedOfAdvanced q.2).1.length > 0
      · rw [if_pos hs] at h1
        rcases List.mem_append.mp h1 with h2 | h2
        · exact Or.inl h2
        · refine Or.inr ⟨q, List.mem_cons_self _ _, List.mem_singleton.mp h2, ?_⟩
          intro hnil
          rw [hnil] at hs
          simp at hs
      · rw [if_neg hs] at h1
        exact Or.inl h1
    · exact Or.inr ⟨p, List.mem_cons_of_mem _ hp, hx⟩

theorem exists_entry_foldl_stepAdvanced (R : List EventRankingData)
    (l : List (String × List AthleteEventScore))
    (acc : List AthleteEntry × List (String × EventEntry))
    (p : String × List AthleteEventScore) (hp : p ∈ l)
    (hsel : (selectedOfAdvanced p.2).1 ≠ []) :
    ∃ x ∈ (l.foldl (stepAdvanced R) acc).1, x.athlete = p.1 := by
  induction l generalizing acc with
  | nil => exact absurd hp (by simp)
  | cons q rest ih =>
    rw [List.foldl_cons]
    rcases List.mem_cons.mp hp with h1 | h2
    · refine ⟨entryOfAdvanced p, ?_, entryOfAdvanced_athlete p⟩
      apply foldl_stepAdvanced_mono
      rw [← h1, stepAdvanced_eq_pos R acc p (List.length_pos.mpr hsel)]
      exact List.mem_append_right _ (List.mem_singleton_self _)
    · exact ih _ h2

theorem athletes_sublist_foldl_stepSimple (R : List EventRankingData)
    (l : List (String × List (String × ScoreRP)))
    (acc : List AthleteEntry × List (String × EventEntry)) :
    ∃ s, (l.foldl (stepSimple R) acc).1.map (fun x => x.athlete)
          = acc.1.map (fun x => x.athlete) ++ s ∧ s.Sublist (l.map Prod.fst) := by
  induction l generalizing acc with
  | nil => exact ⟨[], by simp, List.nil_sublist _⟩
  | cons q rest ih =>
    rw [List.foldl_cons]
    by_cases hs : (selectedOfSimple q.2).length > 0
    · rw [stepSimple_eq_pos R acc q hs]
      rcases ih (acc.1 ++ [entryOfSimple q],
        addBreakdownSimple R q.1 q.2 acc.2 (selectedOfSimple q.2)) with ⟨s, heq, hsub⟩
      refine ⟨q.1 :: s, ?_, ?_⟩
      · rw [heq]
        simp [entryOfSimple_athlete]
      · exact List.Sublist.cons₂ _ hsub
    · rw [stepSimple_eq_neg R acc q hs]
      rcases ih acc with ⟨s, heq, hsub⟩
      exact ⟨s, heq, hsub.cons q.1⟩

theorem athletes_sublist_foldl_stepAdvanced (R : List EventRankingData)
    (l : List (String × List AthleteEventScore))
    (acc : List AthleteEntry × List (String × EventEntry)) :
    ∃ s, (l.foldl (stepAdvanced R) acc).1.map (fun x => x.athlete)
          = acc.1.map (fun x => x.athlete) ++ s ∧ s.Sublist (l.map Prod.fst) := by
  induction l generalizing acc with
  | nil => exact ⟨[], by simp, List.nil_sublist _⟩
  | cons q rest ih =>
    rw [List.foldl_cons]
    by_cases hs : (selectedOfAdvanced q.2).1.length > 0
    · rw [stepAdvanced_eq_pos R acc q hs]
      rcases ih (acc.1 ++ [entryOfAdvanced q],
        addBreakdownAdvanced R q.1 acc.2 (selectedOfAdvanced q.2).2) with ⟨s, heq, hsub⟩
      refine ⟨q.1 :: s, ?_, ?_⟩
      · rw [heq]
        simp [entryOfAdvanced_athlete]
      · exact List.Sublist.cons₂ _ hsub
    · rw [stepAdvanced_eq_neg R acc q hs]
      rcases ih acc with ⟨s, heq, hsub⟩
      exact ⟨s, heq, hsub.cons q.1⟩

/-! ### Point-sum lemmas -/

theorem sumBy_map {α β : Type} (f : β → Nat) (g : α → β) (l : List α) :
    sumBy f (l.map g) = sumBy (fun a => f (g a)) l := by
  induction l with
  | nil => rfl
  | cons a t ih => simp [sumBy, ih]

theorem sumBy_congr {α : Type} (f g : α → Nat) (l : List α)
    (h : ∀ a ∈ l, f a = g a) : sumBy f l = sumBy g l := by
  induction l with
  | nil => rfl
  | cons a t ih =>
    unfold sumBy
    rw [h a (List.mem_cons_self _ _), ih (fun a ha => h a (List.mem_cons_of_mem _ ha))]

theorem sumBy_nil {α : Type} (f : α → Nat) : sumBy f [] = 0 := rfl

theorem sumBy_cons {α : Type} (f : α → Nat) (a : α) (t : List α) :
    sumBy f (a :: t) = f a + sumBy f t := rfl

theorem getA_cons {β : Type} (k0 : String) (v0 : β) (t : List (String × β)) (k : String) :
    getA ((k0, v0) :: t) k = if k0 = k then some v0 else getA t k := rfl

theorem setA_cons {β : Type} (k0 : String) (v0 : β) (t : List (String × β))
    (k : String) (v : β) :
    setA ((k0, v0) :: t) k v = if k0 = k then (k, v) :: t else (k0, v0) :: setA t k v := rfl

theorem sumRows_cons (k0 : String) (ee0 : EventEntry) (t : List (String × EventEntry)) :
    sumRows ((k0, ee0) :: t)
      = sumBy (fun r => r.projectedPoints) ee0.athletes + sumRows t := rfl

theorem sumRows_pushRow (entries : List (String × EventEntry)) (ev evName : String)
    (row : EventAthleteRow) :
    sumRows (pushRow entries ev evName row) = sumRows entries + row.projectedPoints := by
  induction entries with
  | nil =>
    show sumRows [(ev, { event := ev, eventName := evName, athletes := [] ++ [row] })] = _
    simp [sumRows, sumBy]
  | cons q t ih =>
    obtain ⟨k0, ee0⟩ := q
    unfold pushRow
    rw [getA_cons, setA_cons]
    by_cases hk : k0 = ev
    · rw [if_pos hk, if_pos hk, Option.getD_some]
      rw [sumRows_cons, sumRows_cons]
      show sumBy _ (ee0.athletes ++ [row]) + _ = _
      rw [sumBy_append]
      simp [sumBy]
      omega
    · rw [if_neg hk, if_neg hk]
      have hgoal : ((k0, ee0) :: setA t ev
          { (getA t ev).getD { event := ev, eventName := evName, athletes := [] } with
            athletes := ((getA t ev).getD
              { event := ev, eventName := evName, athletes := [] }).athletes ++ [row] })
          = (k0, ee0) :: pushRow t ev evName row := rfl
      rw [hgoal, sumRows_cons, sumRows_cons, ih]
      omega

theorem sumRows_addBreakdownSimple (R : List EventRankingData) (a : String)
    (es : List (String × ScoreRP)) (entries : List (String × EventEntry))
    (sel : List String) :
    sumRows (addBreakdownSimple R a es entries sel)
      = sumRows entries
        + sumBy (fun e => ((getA es e).getD { rank := 0, points := 0 }).points) sel := by
  induction sel generalizing entries with
  | nil => simp [addBreakdownSimple, sumBy]
  | cons e rest ih =>
    have hstep : addBreakdownSimple R a es entries (e :: rest)
        = addBreakdownSimple R a es
            (pushRow entries e (lookupEventName R e)
              { athlete := a,
                projectedPlace := ((getA es e).getD { rank := 0, points := 0 }).rank,
                projectedPoints := ((getA es e).getD { rank := 0, points := 0 }).points,
                currentRank := ((getA es e).getD { rank := 0, points := 0 }).rank }) rest := rfl
    rw [hstep, ih, sumRows_pushRow, sumBy_cons]
    simp only []
    omega

theorem sumRows_addBreakdownAdvanced (R : List EventRankingData) (a : String)
    (entries : List (String × EventEntry)) (scores : List AthleteEventScore) :
    sumRows (addBreakdownAdvanced R a entries scores)
      = sumRows entries + sumBy (fun s => s.points) scores := by
  induction scores generalizing entries with
  | nil => simp [addBreakdownAdvanced, sumBy]
  | cons sc rest ih =>
    have hstep : addBreakdownAdvanced R a entries (sc :: rest)
        = addBreakdownAdvanced R a
            (pushRow entries sc.event (lookupEventName R sc.event)
              { athlete := a, projectedPlace := sc.projectedPlace,
                projectedPoints := sc.points, currentRank := sc.rank }) rest := rfl
    rw [hstep, ih, sumRows_pushRow, sumBy_cons]
    simp only []
    omega

theorem entryOfSimple_points (p : String × List (String × ScoreRP)) :
    (entryOfSimple p).projectedPoints
      = sumBy (fun e => ((getA p.2 e).getD { rank := 0, points := 0 }).points)
          (selectedOfSimple p.2) := by
  show (selectedOfSimple p.2).foldl
      (fun sum event => sum + ((getA p.2 event).getD { rank := 0, points := 0 }).points) 0 = _
  rw [foldl_add_sumBy]
  exact Nat.zero_add _

theorem entryOfAdvanced_points (p : String × List AthleteEventScore) :
    (entryOfAdvanced p).projectedPoints
      = sumBy (fun s => s.points) (selectedOfAdvanced p.2).2 := by
  show (selectedOfAdvanced p.2).2.foldl (fun sum s => sum + s.points) 0 = _
  rw [foldl_add_sumBy]
  exact Nat.zero_add _

theorem balance_stepSimple (R : List EventRankingData)
    (acc : List AthleteEntry × List (String × EventEntry))
    (p : String × List (String × ScoreRP)) :
    sumBy (fun x => x.projectedPoints) (stepSimple R acc p).1 + sumRows acc.2
      = sumRows (stepSimple R acc p).2 + sumBy (fun x => x.projectedPoints) acc.1 := by
  by_cases hs : (selectedOfSimple p.2).length > 0
  · rw [stepSimple_eq_pos R acc p hs]
    show sumBy _ (acc.1 ++ [entryOfSimple p]) + _ = sumRows (addBreakdownSimple _ _ _ _ _) + _
    rw [sumBy_append, sumRows_addBreakdownSimple]
    have hpts := entryOfSimple_points p
    simp only [sumBy_cons, sumBy_nil]
    omega
  · rw [stepSimple_eq_neg R acc p hs]
    omega

theorem balance_stepAdvanced (R : List EventRankingData)
    (acc : List AthleteEntry × List (String × EventEntry))
    (p : String × List AthleteEventScore) :
    sumBy (fun x => x.projectedPoints) (stepAdvanced R acc p).1 + sumRows acc.2
      = sumRows (stepAdvanced R acc p).2 + sumBy (fun x => x.projectedPoints) acc.1 := by
  by_cases hs : (selectedOfAdvanced p.2).1.length > 0
  · rw [stepAdvanced_eq_pos R acc p hs]
    show sumBy _ (acc.1 ++ [entryOfAdvanced p]) + _
        = sumRows (addBreakdownAdvanced _ _ _ _) + _
    rw [sumBy_append, sumRows_addBreakdownAdvanced]
    have hpts := entryOfAdvanced_points p
    simp only [sumBy_cons, sumBy_nil]
    omega
  · rw [stepAdvanced_eq_neg R acc p hs]
    omega

theorem balance_foldl_stepSimple (R : List EventRankingData)
    (l : List (String × List (String × ScoreRP)))
    (acc : List AthleteEntry × List (String × EventEntry)) :
    sumBy (fun x => x.projectedPoints) (l.foldl (stepSimple R) acc).1 + sumRows acc.2
      = sumRows (l.foldl (stepSimple R) acc).2
        + sumBy (fun x => x.projectedPoints) acc.1 := by
  induction l generalizing acc with
  | nil =>
    simp only [List.foldl_nil]
    omega
  | cons q rest ih =>
    rw [List.foldl_cons]
    have h1 := ih (stepSimple R acc q)
    have h2 := balance_stepSimple R acc q
    omega

theorem balance_foldl_stepAdvanced (R : List EventRankingData)
    (l : List (String × List AthleteEventScore))
    (acc : List AthleteEntry × List (String × EventEntry)) :
    sumBy (fun x => x.projectedPoints) (l.foldl (stepAdvanced R) acc).1 + sumRows acc.2
      = sumRows (l.foldl (stepAdvanced R) acc).2
        + sumBy (fun x => x.projectedPoints) acc.1 := by
  induction l generalizing acc with
  | nil =>
    simp only [List.foldl_nil]
    omega
  | cons q rest ih =>
    rw [List.foldl_cons]
    have h1 := ih (stepAdvanced R acc q)
    have h2 := balance_stepAdvanced R acc q
    omega

/-! ### Result-level lemmas -/

theorem getA_isSome_of_mem {β : Type} (l : List (String × β)) (p : String × β)
    (h : p ∈ l) : (getA l p.1).isSome = true := by
  induction l with
  | nil => exact absurd h (by simp)
  | cons q t ih =>
    obtain ⟨k0, v0⟩ := q
    rw [getA_cons]
    by_cases hk : k0 = p.1
    · rw [if_pos hk]; rfl
    · rw [if_neg hk]
      rcases List.mem_cons.mp h with h1 | h2
      · exact absurd (congrArg Prod.fst h1.symm) hk
      · exact ih h2

theorem sortJS_eq_nil_iff {α : Type} (lt : α → α → Bool) (l : List α) :
    sortJS lt l = [] ↔ l = [] := by
  constructor
  · intro h
    have := (sortJS_perm lt l).length_eq
    rw [h] at this
    exact List.length_eq_zero.mp this.symm
  · intro h
    rw [h]
    rfl

theorem coreSimple_total (R : List EventRankingData) (t g gr : String) :
    (optimizeCoreSimple R t g gr).totalProjectedPoints
      = sumBy (fun a => a.projectedPoints) (optimizeCoreSimple R t g gr).athleteEntries := by
  show (sortJS ltEntry (builtSimple R t).1).foldl (fun sum a => sum + a.projectedPoints) 0 = _
  rw [foldl_add_sumBy]
  exact Nat.zero_add _

theorem coreAdvanced_total (R : List EventRankingData) (t g gr : String) :
    (optimizeCoreAdvanced R t g gr).totalProjectedPoints
      = sumBy (fun a => a.projectedPoints) (optimizeCoreAdvanced R t g gr).athleteEntries := by
  show (sortJS ltEntry (builtAdvanced R t).1).foldl (fun sum a => sum + a.projectedPoints) 0 = _
  rw [foldl_add_sumBy]
  exact Nat.zero_add _

theorem coreSimple_breakdown_sum (R : List EventRankingData) (t g gr : String) :
    sumBy (fun ee => sumBy (fun r => r.projectedPoints) ee.athletes)
        (optimizeCoreSimple R t g gr).eventBreakdown
      = (optimizeCoreSimple R t g gr).totalProjectedPoints := by
  have hmap : sumBy (fun ee => sumBy (fun r => r.projectedPoints) ee.athletes)
      (optimizeCoreSimple R t g gr).eventBreakdown
      = sumBy (fun ee => sumBy (fun r => r.projectedPoints) (sortJS ltRow ee.athletes))
          (sortJS ltEvent ((builtSimple R t).2.map (fun p => p.2))) := by
    show sumBy _ ((sortJS ltEvent ((builtSimple R t).2.map (fun p => p.2))).map
        (fun ee => { ee with athletes := sortJS ltRow ee.athletes })) = _
    rw [sumBy_map]
  have hinner : sumBy (fun ee => sumBy (fun r => r.projectedPoints) (sortJS ltRow ee.athletes))
      (sortJS ltEvent ((builtSimple R t).2.map (fun p => p.2)))
      = sumBy (fun ee => sumBy (fun r => r.projectedPoints) ee.athletes)
          (sortJS ltEvent ((builtSimple R t).2.map (fun p => p.2))) :=
    sumBy_congr _ _ _ (fun ee _ => sumBy_perm _ (sortJS_perm ltRow ee.athletes))
  have houter : sumBy (fun ee => sumBy (fun r => r.projectedPoints) ee.athletes)
      (sortJS ltEvent ((builtSimple R t).2.map (fun p => p.2)))
      = sumBy (fun ee => sumBy (fun r => r.projectedPoints) ee.athletes)
          ((builtSimple R t).2.map (fun p => p.2)) :=
    sumBy_perm _ (sortJS_perm ltEvent _)
  have hrows : sumBy (fun ee => sumBy (fun r => r.projectedPoints) ee.athletes)
      ((builtSimple R t).2.map (fun p => p.2)) = sumRows (builtSimple R t).2 := by
    rw [sumBy_map]
    rfl
  have hbal : sumBy (fun x => x.projectedPoints) (builtSimple R t).1 + sumRows ([], []).2
      = sumRows (builtSimple R t).2 + sumBy (fun x => x.projectedPoints)
          (([], []) : List AthleteEntry × List (String × EventEntry)).1 :=
    balance_foldl_stepSimple R (buildAthleteScores R t) ([], [])
  have htot := coreSimple_total R t g gr
  have hperm : sumBy (fun a => a.projectedPoints)
      (optimizeCoreSimple R t g gr).athleteEntries
      = sumBy (fun x => x.projectedPoints) (builtSimple R t).1 :=
    sumBy_perm _ (sortJS_perm ltEntry _)
  have hz1 : sumRows (([], []) : List AthleteEntry × List (String × EventEntry)).2 = 0 := rfl
  have hz2 : sumBy (fun x => x.projectedPoints)
      (([], []) : List AthleteEntry × List (String × EventEntry)).1 = 0 := rfl
  omega

theorem coreAdvanced_breakdown_sum (R : List EventRankingData) (t g gr : String) :
    sumBy (fun ee => sumBy (fun r => r.projectedPoints) ee.athletes)
        (optimizeCoreAdvanced R t g gr).eventBreakdown
      = (optimizeCoreAdvanced R t g gr).totalProjectedPoints := by
  have hmap : sumBy (fun ee => sumBy (fun r => r.projectedPoints) ee.athletes)
      (optimizeCoreAdvanced R t g gr).eventBreakdown
      = sumBy (fun ee => sumBy (fun r => r.projectedPoints) (sortJS ltRow ee.athletes))
          (sortJS ltEvent ((builtAdvanced R t).2.map (fun p => p.2))) := by
    show sumBy _ ((sortJS ltEvent ((builtAdvanced R t).2.map (fun p => p.2))).map
        (fun ee => { ee with athletes := sortJS ltRow ee.athletes })) = _
    rw [sumBy_map]
  have hinner : sumBy (fun ee => sumBy (fun r => r.projectedPoints) (sortJS ltRow ee.athletes))
      (sortJS ltEvent ((builtAdvanced R t).2.map (fun p => p.2)))
      = sumBy (fun ee => sumBy (fun r => r.projectedPoints) ee.athletes)
          (sortJS ltEvent ((builtAdvanced R t).2.map (fun p => p.2))) :=
    sumBy_congr _ _ _ (fun ee _ => sumBy_perm _ (sortJS_perm ltRow ee.athletes))
  have houter : sumBy (fun ee => sumBy (fun r => r.projectedPoints) ee.athletes)
      (sortJS ltEvent ((builtAdvanced R t).2.map (fun p => p.2)))
      = sumBy (fun ee => sumBy (fun r => r.projectedPoints) ee.athletes)
          ((builtAdvanced R t).2.map (fun p => p.2)) :=
    sumBy_perm _ (sortJS_perm ltEvent _)
  have hrows : sumBy (fun ee => sumBy (fun r => r.projectedPoints) ee.athletes)
      ((builtAdvanced R t).2.map (fun p => p.2)) = sumRows (builtAdvanced R t).2 := by
    rw [sumBy_map]
    rfl
  have hbal : sumBy (fun x => x.projectedPoints) (builtAdvanced R t).1 + sumRows ([], []).2
      = sumRows (builtAdvanced R t).2 + sumBy (fun x => x.projectedPoints)
          (([], []) : List AthleteEntry × List (String × EventEntry)).1 :=
    balance_foldl_stepAdvanced R
      (buildAthleteOptions R (predictCompetition R) t) ([], [])
  have htot := coreAdvanced_total R t g gr
  have hperm : sumBy (fun a => a.projectedPoints)
      (optimizeCoreAdvanced R t g gr).athleteEntries
      = sumBy (fun x => x.projectedPoints) (builtAdvanced R t).1 :=
    sumBy_perm _ (sortJS_perm ltEntry _)
  have hz1 : sumRows (([], []) : List AthleteEntry × List (String × EventEntry)).2 = 0 := rfl
  have hz2 : sumBy (fun x => x.projectedPoints)
      (([], []) : List AthleteEntry × List (String × EventEntry)).1 = 0 := rfl
  omega

theorem entries_from_simple (R : List EventRankingData) (t g gr : String)
    (x : AthleteEntry) (hx : x ∈ (optimizeCoreSimple R t g gr).athleteEntries) :
    ∃ p ∈ buildAthleteScores R t, x = entryOfSimple p ∧ selectedOfSimple p.2 ≠ [] := by
  have hx' : x ∈ (builtSimple R t).1 :=
    (sortJS_perm ltEntry (builtSimple R t).1).mem_iff.mp hx
  have hmem : x ∈ (([], []) : List AthleteEntry × List (String × EventEntry)).1 ∨
      ∃ p ∈ buildAthleteScores R t, x = entryOfSimple p ∧ selectedOfSimple p.2 ≠ [] :=
    mem_foldl_stepSimple R (buildAthleteScores R t) ([], []) x hx'
  rcases hmem with h0 | h
  · exact absurd h0 (by simp)
  · exact h

theorem entries_from_advanced (R : List EventRankingData) (t g gr : String)
    (x : AthleteEntry) (hx : x ∈ (optimizeCoreAdvanced R t g gr).athleteEntries) :
    ∃ p ∈ buildAthleteOptions R (predictCompetition R) t,
      x = entryOfAdvanced p ∧ (selectedOfAdvanced p.2).1 ≠ [] := by
  have hx' : x ∈ (builtAdvanced R t).1 :=
    (sortJS_perm ltEntry (builtAdvanced R t).1).mem_iff.mp hx
  have hmem : x ∈ (([], []) : List AthleteEntry × List (String × EventEntry)).1 ∨
      ∃ p ∈ buildAthleteOptions R (predictCompetition R) t,
        x = entryOfAdvanced p ∧ (selectedOfAdvanced p.2).1 ≠ [] :=
    mem_foldl_stepAdvanced R (buildAthleteOptions R (predictCompetition R) t) ([], []) x hx'
  rcases hmem with h0 | h
  · exact absurd h0 (by simp)
  · exact h

theorem entries_valid_simple (R : List EventRankingData) (t g gr : String)
    (x : AthleteEntry) (hx : x ∈ (optimizeCoreSimple R t g gr).athleteEntries) :
    isValidCombinationSimple x.events = true := by
  rcases entries_from_simple R t g gr x hx with ⟨p, _, hxe, _⟩
  rw [hxe, entryOfSimple_events]
  exact greedySelectSimple_valid _

theorem entries_valid_advanced (R : List EventRankingData) (t g gr : String)
    (x : AthleteEntry) (hx : x ∈ (optimizeCoreAdvanced R t g gr).athleteEntries) :
    isValidCombinationSimple x.events = true := by
  rcases entries_from_advanced R t g gr x hx with ⟨p, _, hxe, _⟩
  rw [hxe, entryOfAdvanced_events]
  exact greedySelectAdvanced_valid _

theorem entries_athlete_iff_simple (R : List EventRankingData) (t g gr a : String) :
    (∃ x ∈ (optimizeCoreSimple R t g gr).athleteEntries, x.athlete = a)
      ↔ hasTeamRow R t a := by
  constructor
  · rintro ⟨x, hx, hxa⟩
    rcases entries_from_simple R t g gr x hx with ⟨p, hp, hxe, _⟩
    have hkey : (getA (buildAthleteScores R t) p.1).isSome = true :=
      getA_isSome_of_mem _ p hp
    have : p.1 = a := by
      rw [hxe, entryOfSimple_athlete] at hxa
      exact hxa
    rw [this] at hkey
    exact (athleteScores_key_iff R t a).mp hkey
  · intro h
    have hkey := (athleteScores_key_iff R t a).mpr h
    rcases Option.isSome_iff_exists.mp hkey with ⟨v, hv⟩
    have hmem : (a, v) ∈ buildAthleteScores R t := getA_mem _ a v hv
    have hvne : v ≠ [] := athleteScores_values_ne_nil R t (a, v) hmem
    have hsel : selectedOfSimple v ≠ [] := by
      apply greedySelectSimple_ne_nil
      intro hnil
      exact hvne ((sortJS_eq_nil_iff ltCandidate v).mp hnil)
    rcases exists_entry_foldl_stepSimple R (buildAthleteScores R t) ([], []) (a, v)
        hmem hsel with ⟨x, hx, hxa⟩
    exact ⟨x, (sortJS_perm ltEntry (builtSimple R t).1).mem_iff.mpr hx, hxa⟩

theorem entries_athlete_iff_advanced (R : List EventRankingData) (t g gr a : String) :
    (∃ x ∈ (optimizeCoreAdvanced R t g gr).athleteEntries, x.athlete = a)
      ↔ hasTeamRow R t a := by
  constructor
  · rintro ⟨x, hx, hxa⟩
    rcases entries_from_advanced R t g gr x hx with ⟨p, hp, hxe, _⟩
    have hkey : (getA (buildAthleteOptions R (predictCompetition R) t) p.1).isSome = true :=
      getA_isSome_of_mem _ p hp
    have : p.1 = a := by
      rw [hxe, entryOfAdvanced_athlete] at hxa
      exact hxa
    rw [this] at hkey
    exact (athleteOptions_key_iff R (predictCompetition R) t a).mp hkey
  · intro h
    have hkey := (athleteOptions_key_iff R (predictCompetition R) t a).mpr h
    rcases Option.isSome_iff_exists.mp hkey with ⟨v, hv⟩
    have hmem : (a, v) ∈ buildAthleteOptions R (predictCompetition R) t := getA_mem _ a v hv
    have hvne : v ≠ [] := athleteOptions_values_ne_nil R (predictCompetition R) t (a, v) hmem
    have hsel : (selectedOfAdvanced v).1 ≠ [] := by
      apply greedySelectAdvanced_ne_nil
      intro hnil
      exact hvne ((sortJS_eq_nil_iff ltOption v).mp hnil)
    rcases exists_entry_foldl_stepAdvanced R (buildAthleteOptions R (predictCompetition R) t)
        ([], []) (a, v) hmem hsel with ⟨x, hx, hxa⟩
    exact ⟨x, (sortJS_perm ltEntry (builtAdvanced R t).1).mem_iff.mpr hx, hxa⟩

theorem entries_athletes_nodup_simple (R : List EventRankingData) (t g gr : String) :
    ((optimizeCoreSimple R t g gr).athleteEntries.map (fun x => x.athlete)).Nodup := by
  rcases athletes_sublist_foldl_stepSimple R (buildAthleteScores R t) ([], [])
    with ⟨s, heq, hsub⟩
  have hkeys : ((buildAthleteScores R t).map Prod.fst).Nodup := athleteScores_nodup_keys R t
  have hs : s.Nodup := hsub.nodup hkeys
  have hbuilt : ((builtSimple R t).1.map (fun x => x.athlete)).Nodup := by
    have heq' : (builtSimple R t).1.map (fun x => x.athlete)
        = (([], []) : List AthleteEntry × List (String × EventEntry)).1.map
            (fun x => x.athlete) ++ s := heq
    rw [heq']
    simpa using hs
  have hperm : ((optimizeCoreSimple R t g gr).athleteEntries.map (fun x => x.athlete)).Perm
      ((builtSimple R t).1.map (fun x => x.athlete)) :=
    (sortJS_perm ltEntry (builtSimple R t).1).map _
  exact hperm.nodup_iff.mpr hbuilt

theorem entries_athletes_nodup_advanced (R : List EventRankingData) (t g gr : String) :
    ((optimizeCoreAdvanced R t g gr).athleteEntries.map (fun x => x.athlete)).Nodup := by
  rcases athletes_sublist_foldl_stepAdvanced R
    (buildAthleteOptions R (predictCompetition R) t) ([], []) with ⟨s, heq, hsub⟩
  have hkeys : ((buildAthleteOptions R (predictCompetition R) t).map Prod.fst).Nodup :=
    athleteOptions_nodup_keys R (predictCompetition R) t
  have hs : s.Nodup := hsub.nodup hkeys
  have hbuilt : ((builtAdvanced R t).1.map (fun x => x.athlete)).Nodup := by
    have heq' : (builtAdvanced R t).1.map (fun x => x.athlete)
        = (([], []) : List AthleteEntry × List (String × EventEntry)).1.map
            (fun x => x.athlete) ++ s := heq
    rw [heq']
    simpa using hs
  have hperm : ((optimizeCoreAdvanced R t g gr).athleteEntries.map (fun x => x.athlete)).Perm
      ((builtAdvanced R t).1.map (fun x => x.athlete)) :=
    (sortJS_perm ltEntry (builtAdvanced R t).1).map _
  exact hperm.nodup_iff.mpr hbuilt

/-! ### Sortedness lemmas -/

theorem ltEntry_asymm (a b : AthleteEntry) (h : ltEntry a b = true) : ltEntry b a = false := by
  simp [ltEntry] at *
  omega

theorem ltEntry_compat (a b c : AthleteEntry) (h1 : ltEntry a b = true)
    (h2 : ltEntry c b = false) : ltEntry c a = false := by
  simp [ltEntry] at *
  omega

theorem ltEvent_asymm (a b : EventEntry) (h : ltEvent a b = true) : ltEvent b a = false := by
  simp [ltEvent] at *
  exact le_of_lt h

theorem ltEvent_compat (a b c : EventEntry) (h1 : ltEvent a b = true)
    (h2 : ltEvent c b = false) : ltEvent c a = false := by
  simp [ltEvent] at *
  exact le_of_lt (lt_of_lt_of_le h1 h2)

theorem ltRow_asymm (a b : EventAthleteRow) (h : ltRow a b = true) : ltRow b a = false := by
  simp [ltRow] at *
  omega

theorem ltRow_compat (a b c : EventAthleteRow) (h1 : ltRow a b = true)
    (h2 : ltRow c b = false) : ltRow c a = false := by
  simp [ltRow] at *
  omega

theorem sorted_entries_simple (R : List EventRankingData) (t g gr : String) :
    (optimizeCoreSimple R t g gr).athleteEntries.Pairwise
      (fun x y => y.projectedPoints ≤ x.projectedPoints) := by
  have h := pairwise_sortJS ltEntry ltEntry_asymm ltEntry_compat (builtSimple R t).1
  exact h.imp (by intro a b hab; simp [ltEntry] at hab; omega)

theorem sorted_entries_advanced (R : List EventRankingData) (t g gr : String) :
    (optimizeCoreAdvanced R t g gr).athleteEntries.Pairwise
      (fun x y => y.projectedPoints ≤ x.projectedPoints) := by
  have h := pairwise_sortJS ltEntry ltEntry_asymm ltEntry_compat (builtAdvanced R t).1
  exact h.imp (by intro a b hab; simp [ltEntry] at hab; omega)

theorem sorted_events_simple (R : List EventRankingData) (t g gr : String) :
    (optimizeCoreSimple R t g gr).eventBreakdown.Pairwise
      (fun x y => x.event ≤ y.event) := by
  have h := pairwise_sortJS ltEvent ltEvent_asymm ltEvent_compat
    ((builtSimple R t).2.map (fun p => p.2))
  show ((sortJS ltEvent ((builtSimple R t).2.map (fun p => p.2))).map
      (fun ee => { ee with athletes := sortJS ltRow ee.athletes })).Pairwise
        (fun x y => x.event ≤ y.event)
  rw [List.pairwise_map]
  refine h.imp ?_
  intro a b hab
  show a.event ≤ b.event
  exact not_lt.mp (of_decide_eq_false hab)

theorem sorted_events_advanced (R : List EventRankingData) (t g gr : String) :
    (optimizeCoreAdvanced R t g gr).eventBreakdown.Pairwise
      (fun x y => x.event ≤ y.event) := by
  have h := pairwise_sortJS ltEvent ltEvent_asymm ltEvent_compat
    ((builtAdvanced R t).2.map (fun p => p.2))
  show ((sortJS ltEvent ((builtAdvanced R t).2.map (fun p => p.2))).map
      (fun ee => { ee with athletes := sortJS ltRow ee.athletes })).Pairwise
        (fun x y => x.event ≤ y.event)
  rw [List.pairwise_map]
  refine h.imp ?_
  intro a b hab
  show a.event ≤ b.event
  exact not_lt.mp (of_decide_eq_false hab)

theorem sorted_rows_simple (R : List EventRankingData) (t g gr : String)
    (ee : EventEntry) (hee : ee ∈ (optimizeCoreSimple R t g gr).eventBreakdown) :
    ee.athletes.Pairwise (fun x y => x.projectedPlace ≤ y.projectedPlace) := by
  rcases List.mem_map.mp hee with ⟨orig, _, heq⟩
  rw [← heq]
  have h := pairwise_sortJS ltRow ltRow_asymm ltRow_compat orig.athletes
  exact h.imp (by intro a b hab; simp [ltRow] at hab; omega)

theorem sorted_rows_advanced (R : List EventRankingData) (t g gr : String)
    (ee : EventEntry) (hee : ee ∈ (optimizeCoreAdvanced R t g gr).eventBreakdown) :
    ee.athletes.Pairwise (fun x y => x.projectedPlace ≤ y.projectedPlace) := by
  rcases List.mem_map.mp hee with ⟨orig, _, heq⟩
  rw [← heq]
  have h := pairwise_sortJS ltRow ltRow_asymm ltRow_compat orig.athletes
  exact h.imp (by intro a b hab; simp [ltRow] at hab; omega)

/-! ### Empty-input lemmas -/

theorem foldl_scoreStep_no_team (t : String)
    (pairs : List (EventRankingData × RankingRow))
    (acc : List (String × List (String × ScoreRP)))
    (h : ∀ q ∈ pairs, ¬ q.2.team = t) :
    pairs.foldl (fun acc q => scoreStep t q.1 acc q.2) acc = acc := by
  induction pairs generalizing acc with
  | nil => rfl
  | cons q rest ih =>
    rw [List.foldl_cons, scoreStep_eq_neg t q acc (h q (List.mem_cons_self _ _))]
    exact ih _ (fun q' hq' => h q' (List.mem_cons_of_mem _ hq'))

theorem foldl_optionStep_no_team (t : String) (le : List (String × List String))
    (pairs : List (EventRankingData × RankingRow))
    (acc : List (String × List AthleteEventScore))
    (h : ∀ q ∈ pairs, ¬ q.2.team = t) :
    pairs.foldl (fun acc q => optionStep t le q.1 acc q.2) acc = acc := by
  induction pairs generalizing acc with
  | nil => rfl
  | cons q rest ih =>
    rw [List.foldl_cons, optionStep_eq_neg t le q acc (h q (List.mem_cons_self _ _))]
    exact ih _ (fun q' hq' => h q' (List.mem_cons_of_mem _ hq'))

theorem buildAthleteScores_empty (R : List EventRankingData) (t : String)
    (h : ∀ ed ∈ R, ∀ row ∈ ed.rankings, row.team ≠ t) :
    buildAthleteScores R t = [] := by
  rw [buildAthleteScores_eq_pairs]
  apply foldl_scoreStep_no_team
  intro q hq
  rcases (mem_pairsOfEd R q).mp hq with ⟨ed, hed, row, hrow, hq'⟩
  rw [hq']
  exact h ed hed row hrow

theorem buildAthleteOptions_empty (R : List EventRankingData)
    (le : List (String × List String)) (t : String)
    (h : ∀ ed ∈ R, ∀ row ∈ ed.rankings, row.team ≠ t) :
    buildAthleteOptions R le t = [] := by
  rw [buildAthleteOptions_eq_pairs]
  apply foldl_optionStep_no_team
  intro q hq
  rcases (mem_pairsOfEd R q).mp hq with ⟨ed, hed, row, hrow, hq'⟩
  rw [hq']
  exact h ed hed row hrow

theorem coreSimple_of_empty (R : List EventRankingData) (t g gr : String)
    (h : buildAthleteScores R t = []) :
    optimizeCoreSimple R t g gr
      = { school := t, gender := g, grade := gr, totalProjectedPoints := 0,
          athleteEntries := [], eventBreakdown := [] } := by
  unfold optimizeCoreSimple builtSimple
  rw [h]
  rfl

theorem coreAdvanced_of_empty (R : List EventRankingData) (t g gr : String)
    (h : buildAthleteOptions R (predictCompetition R) t = []) :
    optimizeCoreAdvanced R t g gr
      = { school := t, gender := g, grade := gr, totalProjectedPoints := 0,
          athleteEntries := [], eventBreakdown := [] } := by
  unfold optimizeCoreAdvanced builtAdvanced
  rw [h]
  rfl

theorem optimizeSimple_some_ok (files : List (String × RankingFile))
    (s t g gr : String) (L : List EventRankingData)
    (hL : loadRankings (some files) s g gr = .ok L) :
    optimizeSimple (some files) s t g gr = .ok (optimizeCoreSimple L t g gr) := by
  unfold optimizeSimple
  rw [hL]
  rfl

theorem optimizeAdvanced_some_ok (files : List (String × RankingFile))
    (s t g gr : String) (L : List EventRankingData)
    (hL : loadRankings (some files) s g gr = .ok L) :
    optimizeAdvanced (some files) s t g gr = .ok (optimizeCoreAdvanced L t g gr) := by
  unfold optimizeAdvanced
  rw [hL]
  rfl

/-! ### Competition predictor lemmas -/

theorem inLikely_iff (l : List (String × List String)) (a e : String) :
    inLikely l a e = true ↔ e ∈ (getA l a).getD [] := by
  unfold inLikely
  cases h : getA l a with
  | none => simp
  | some evs => simp [List.elem_iff]

theorem inLikely_addLikely (likely : List (String × List String)) (ath ev a e : String) :
    inLikely (addLikely likely ath ev) a e = true ↔
      (a = ath ∧ e = ev) ∨ inLikely likely a e = true := by
  rw [inLikely_iff, inLikely_iff]
  unfold addLikely
  rw [getA_setA]
  by_cases hath : ath = a
  · subst hath
    rw [if_pos rfl, Option.getD_some]
    by_cases hc : ((getA likely ath).getD []).contains ev = true
    · rw [if_pos hc]
      constructor
      · intro h
        exact Or.inr h
      · rintro (⟨_, he⟩ | h)
        · rw [he]
          exact List.elem_iff.mp hc
        · exact h
    · rw [if_neg hc]
      simp only [List.mem_append, List.mem_singleton]
      constructor
      · rintro (h | h)
        · exact Or.inr h
        · exact Or.inl ⟨by trivial, h⟩
      · rintro (⟨_, he⟩ | h)
        · exact Or.inr he
        · exact Or.inl h
  · rw [if_neg hath]
    constructor
    · intro h
      exact Or.inr h
    · rintro (⟨ha, _⟩ | h)
      · exact absurd ha.symm hath
      · exact h

theorem inLikely_foldl_addLikely (tops : List String)
    (likely : List (String × List String)) (ev a e : String) :
    inLikely (tops.foldl (fun lk ath => addLikely lk ath ev) likely) a e = true ↔
      inLikely likely a e = true ∨ (a ∈ tops ∧ e = ev) := by
  induction tops generalizing likely with
  | nil => simp
  | cons ath rest ih =>
    rw [List.foldl_cons, ih, inLikely_addLikely]
    simp only [List.mem_cons]
    constructor
    · rintro ((⟨ha, he⟩ | h) | ⟨ha, he⟩)
      · exact Or.inr ⟨Or.inl ha, he⟩
      · exact Or.inl h
      · exact Or.inr ⟨Or.inr ha, he⟩
    · rintro (h | ⟨(ha | ha), he⟩)
      · exact Or.inl (Or.inr h)
      · exact Or.inl (Or.inl ⟨ha, he⟩)
      · exact Or.inr ⟨ha, he⟩

theorem inLikely_teams_foldl (teams : List (String × List String))
    (likely : List (String × List String)) (ev a e : String) :
    inLikely (teams.foldl (fun lk p =>
        (p.2.take (min 3 p.2.length)).foldl (fun lk ath => addLikely lk ath ev) lk)
      likely) a e = true ↔
      inLikely likely a e = true ∨
        (e = ev ∧ ∃ p ∈ teams, a ∈ p.2.take (min 3 p.2.length)) := by
  induction teams generalizing likely with
  | nil => simp
  | cons p rest ih =>
    rw [List.foldl_cons, ih, inLikely_foldl_addLikely]
    constructor
    · rintro ((h | ⟨ha, he⟩) | ⟨he, p', hp', ha⟩)
      · exact Or.inl h
      · exact Or.inr ⟨he, p, List.mem_cons_self _ _, ha⟩
      · exact Or.inr ⟨he, p', List.mem_cons_of_mem _ hp', ha⟩
    · rintro (h | ⟨he, p', hp', ha⟩)
      · exact Or.inl (Or.inl h)
      · rcases List.mem_cons.mp hp' with h1 | h2
        · rw [h1] at ha
          exact Or.inl (Or.inr ⟨ha, he⟩)
        · exact Or.inr ⟨he, p', h2, ha⟩

theorem inLikely_predictCompetition (R : List EventRankingData) (a e : String) :
    inLikely (predictCompetition R) a e = true ↔
      ∃ ed ∈ R, ed.eventAbbr = e ∧
        ∃ p ∈ groupTeamAthletes ed.rankings, a ∈ p.2.take (min 3 p.2.length) := by
  have aux : ∀ (l : List EventRankingData) (likely : List (String × List String)),
      inLikely (l.foldl (fun likelyEntries eventData =>
          (groupTeamAthletes eventData.rankings).foldl (fun likelyEntries p =>
            (p.2.take (min 3 p.2.length)).foldl (fun likelyEntries athlete =>
              addLikely likelyEntries athlete eventData.eventAbbr) likelyEntries)
            likelyEntries) likely) a e = true ↔
        inLikely likely a e = true ∨
          ∃ ed ∈ l, ed.eventAbbr = e ∧
            ∃ p ∈ groupTeamAthletes ed.rankings, a ∈ p.2.take (min 3 p.2.length) := by
    intro l
    induction l with
    | nil => simp
    | cons ed rest ih =>
      intro likely
      rw [List.foldl_cons, ih, inLikely_teams_foldl]
      constructor
      · rintro ((h | ⟨he, p, hp, ha⟩) | ⟨ed', hed', he', p, hp, ha⟩)
        · exact Or.inl h
        · exact Or.inr ⟨ed, List.mem_cons_self _ _, he.symm, p, hp, ha⟩
        · exact Or.inr ⟨ed', List.mem_cons_of_mem _ hed', he', p, hp, ha⟩
      · rintro (h | ⟨ed', hed', he', p, hp, ha⟩)
        · exact Or.inl (Or.inl h)
        · rcases List.mem_cons.mp hed' with h1 | h2
          · rw [h1] at he' hp
            exact Or.inl (Or.inr ⟨he'.symm, p, hp, ha⟩)
          · exact Or.inr ⟨ed', h2, he', p, hp, ha⟩
  have h0 : inLikely [] a e = false := rfl
  unfold predictCompetition
  rw [aux]
  simp [h0]

theorem groupFold_getD (rows : List RankingRow)
    (acc : List (String × List String)) (t : String) :
    (getA (rows.foldl (fun teamAthletes ranking =>
        setA teamAthletes ranking.team
          ((getA teamAthletes ranking.team).getD [] ++ [ranking.athlete])) acc) t).getD []
      = (getA acc t).getD [] ++ teamAthleteList rows t := by
  induction rows generalizing acc with
  | nil => simp [teamAthleteList]
  | cons row rest ih =>
    rw [List.foldl_cons, ih, getA_setA]
    by_cases ht : row.team = t
    · rw [if_pos ht, Option.getD_some, ht]
      unfold teamAthleteList
      rw [List.filter_cons_of_pos (by simp [ht]), List.map_cons]
      simp
    · rw [if_neg ht]
      unfold teamAthleteList
      rw [List.filter_cons_of_neg (by simp [ht])]

theorem groupFold_isSome (rows : List RankingRow)
    (acc : List (String × List String)) (t : String) :
    (getA (rows.foldl (fun teamAthletes ranking =>
        setA teamAthletes ranking.team
          ((getA teamAthletes ranking.team).getD [] ++ [ranking.athlete])) acc) t).isSome
        = true ↔
      (getA acc t).isSome = true ∨ ∃ row ∈ rows, row.team = t := by
  induction rows generalizing acc with
  | nil => simp
  | cons row rest ih =>
    rw [List.foldl_cons, ih, getA_isSome_setA]
    constructor
    · rintro ((h | h) | ⟨row', hrow', ht⟩)
      · exact Or.inr ⟨row, List.mem_cons_self _ _, h⟩
      · exact Or.inl h
      · exact Or.inr ⟨row', List.mem_cons_of_mem _ hrow', ht⟩
    · rintro (h | ⟨row', hrow', ht⟩)
      · exact Or.inl (Or.inr h)
      · rcases List.mem_cons.mp hrow' with h1 | h2
        · rw [h1] at ht
          exact Or.inl (Or.inl ht)
        · exact Or.inr ⟨row', h2, ht⟩

theorem groupTeamAthletes_getD (rows : List RankingRow) (t : String) :
    (getA (groupTeamAthletes rows) t).getD [] = teamAthleteList rows t := by
  unfold groupTeamAthletes
  rw [groupFold_getD]
  simp [getA]

theorem groupTeamAthletes_isSome (rows : List RankingRow) (t : String) :
    (getA (groupTeamAthletes rows) t).isSome = true ↔ ∃ row ∈ rows, row.team = t := by
  unfold groupTeamAthletes
  rw [groupFold_isSome]
  simp [getA]

theorem groupTeamAthletes_nodup_keys (rows : List RankingRow) :
    ((groupTeamAthletes rows).map Prod.fst).Nodup := by
  have aux : ∀ (rows : List RankingRow) (acc : List (String × List String)),
      (acc.map Prod.fst).Nodup →
      ((rows.foldl (fun teamAthletes ranking =>
          setA teamAthletes ranking.team
            ((getA teamAthletes ranking.team).getD [] ++ [ranking.athlete])) acc).map
        Prod.fst).Nodup := by
    intro rows
    induction rows with
    | nil => exact fun acc h => h
    | cons row rest ih =>
      intro acc hacc
      rw [List.foldl_cons]
      exact ih _ (nodup_keys_setA _ _ _ hacc)
  exact aux rows [] (by simp)

theorem teamAthleteList_ne_nil_iff (rows : List RankingRow) (t : String) :
    teamAthleteList rows t ≠ [] ↔ ∃ row ∈ rows, row.team = t := by
  unfold teamAthleteList
  simp only [ne_eq, List.map_eq_nil_iff, List.filter_eq_nil_iff]
  push_neg
  simp

theorem mem_groupTeamAthletes_take_iff (rows : List RankingRow) (a : String) :
    (∃ p ∈ groupTeamAthletes rows, a ∈ p.2.take (min 3 p.2.length)) ↔
      ∃ t, a ∈ (teamAthleteList rows t).take (min 3 (teamAthleteList rows t).length) := by
  constructor
  · rintro ⟨p, hp, ha⟩
    have hget : getA (groupTeamAthletes rows) p.1 = some p.2 :=
      mem_getA_of_nodup _ p.1 p.2 (groupTeamAthletes_nodup_keys rows)
        (by rw [Prod.mk.eta]; exact hp)
    have hval : p.2 = teamAthleteList rows p.1 := by
      rw [← groupTeamAthletes_getD rows p.1, hget, Option.getD_some]
    rw [hval] at ha
    exact ⟨p.1, ha⟩
  · rintro ⟨t, ha⟩
    have hne : teamAthleteList rows t ≠ [] := by
      intro hnil
      rw [hnil] at ha
      simp at ha
    have hsome := (groupTeamAthletes_isSome rows t).mpr
      ((teamAthleteList_ne_nil_iff rows t).mp hne)
    rcases Option.isSome_iff_exists.mp hsome with ⟨v, hv⟩
    have hval : v = teamAthleteList rows t := by
      rw [← groupTeamAthletes_getD rows t, hv, Option.getD_some]
    refine ⟨(t, v), getA_mem _ t v hv, ?_⟩
    rw [hval]
    exact ha

theorem calc_count_aux (le : List (String × List String)) (ev : String) (r : Nat)
    (rows : List RankingRow) (n : Nat) :
    rows.foldl (fun competitorsAhead ranking =>
        if ranking.rank < r then
          if inLikely le ranking.athlete ev then competitorsAhead + 1
          else competitorsAhead
        else competitorsAhead) n
      = n + (rows.filter (fun row =>
          decide (row.rank < r) && inLikely le row.athlete ev)).length := by
  induction rows generalizing n with
  | nil => simp
  | cons row rest ih =>
    rw [List.foldl_cons]
    by_cases h1 : row.rank < r
    · by_cases h2 : inLikely le row.athlete ev = true
      · rw [if_pos h1, if_pos h2, ih, List.filter_cons_of_pos (by simp [h1, h2])]
        simp
        omega
      · rw [if_pos h1, if_neg h2, ih,
          List.filter_cons_of_neg (by simp [h1]; exact Bool.eq_false_iff.mpr h2)]
    · rw [if_neg h1, ih, List.filter_cons_of_neg (by simp [h1])]

theorem calculateProjectedPlace_eq (athlete ev : String) (r : Nat)
    (le : List (String × List String)) (ed : EventRankingData) :
    calculateProjectedPlace athlete ev r le ed
      = 1 + (ed.rankings.filter (fun row =>
          decide (row.rank < r) && inLikely le row.athlete ev)).length := by
  unfold calculateProjectedPlace
  rw [calc_count_aux]
  omega

/-! ### Validity refinement lemmas -/

theorem track_bucket (e : String) :
    (if isTrackEvent e = true then 1 else 0)
      = ((if (e == "1600") = true then 1 else 0) + (if (e == "800") = true then 1 else 0)
          + (if (isTrackEvent e && (e != "1600" && e != "800")) = true then 1 else 0)
        : Nat) := by
  by_cases h16 : e = "1600"
  · subst h16
    decide
  · by_cases h8 : e = "800"
    · subst h8
      decide
    · have hb16 : (e == "1600") = false := by
        simp [h16]
      have hb8 : (e == "800") = false := by
        simp [h8]
      cases ht : isTrackEvent e <;> simp [ht, hb16, hb8, h16, h8]

theorem countP_track_split (l : List String) :
    l.countP (fun e => isTrackEvent e)
      = l.countP (fun e => e == "1600") + l.countP (fun e => e == "800")
        + l.countP (fun e => isTrackEvent e && (e != "1600" && e != "800")) := by
  induction l with
  | nil => rfl
  | cons e t ih =>
    simp only [List.countP_cons]
    have := track_bucket e
    omega

theorem nodup_field_exists (l : List String) (hnd : l.Nodup) (h16 : "1600" ∈ l)
    (h8 : "800" ∈ l)
    (hother : (l.filter (fun e => isTrackEvent e && (e != "1600" && e != "800"))).length ≤ 1)
    (hlen : l.length = 4) :
    0 < (l.filter (fun e => isFieldEvent e)).length := by
  have hsplit := countP_track_split l
  have hpart : l.length
      = l.countP (fun e => isTrackEvent e) + l.countP (fun e => isFieldEvent e) := by
    have hp := List.length_eq_countP_add_countP (p := fun e => isTrackEvent e) (l := l)
    have hcongr : l.countP (fun e => decide ¬(isTrackEvent e = true))
        = l.countP (fun e => isFieldEvent e) := by
      apply List.countP_congr
      intro e _
      unfold isFieldEvent
      cases h : isTrackEvent e <;> simp [h]
    rw [hp, hcongr]
  have h16c : l.count "1600" = 1 := by
    have hle := List.nodup_iff_count_le_one.mp hnd "1600"
    have hge := List.count_pos_iff.mpr h16
    omega
  have h8c : l.count "800" = 1 := by
    have hle := List.nodup_iff_count_le_one.mp hnd "800"
    have hge := List.count_pos_iff.mpr h8
    omega
  have h16p : l.countP (fun e => e == "1600") = 1 := by
    rw [← List.count_eq_countP]
    exact h16c
  have h8p : l.countP (fun e => e == "800") = 1 := by
    rw [← List.count_eq_countP]
    exact h8c
  have hof : l.countP (fun e => isTrackEvent e && (e != "1600" && e != "800"))
      = (l.filter (fun e => isTrackEvent e && (e != "1600" && e != "800"))).length :=
    List.countP_eq_length_filter _ _
  have hff : l.countP (fun e => isFieldEvent e)
      = (l.filter (fun e => isFieldEvent e)).length :=
    List.countP_eq_length_filter _ _
  omega

theorem contains_eq_false_of_not_mem (l : List String) (a : String) (ha : a ∉ l) :
    l.contains a = false := by
  cases hc : l.contains a
  · rfl
  · exact absurd (List.elem_iff.mp hc) ha

theorem simplerValid_iff (l : List String) :
    simplerValidCombination l = true ↔
      (l.length ≤ 4 ∧ (("1600" ∈ l ∧ "800" ∈ l) →
        (l.filter (fun e => isTrackEvent e && (e != "1600" && e != "800"))).length ≤ 1)) := by
  unfold simplerValidCombination
  by_cases h16 : "1600" ∈ l <;> by_cases h8 : "800" ∈ l
  · have hx : l.contains "1600" = true := List.elem_iff.mpr h16
    have hy : l.contains "800" = true := List.elem_iff.mpr h8
    simp [hx, hy, h16, h8]
  · have hx : l.contains "1600" = true := List.elem_iff.mpr h16
    have hy : l.contains "800" = false := contains_eq_false_of_not_mem l _ h8
    simp [hx, hy, h16, h8]
  · have hx : l.contains "1600" = false := contains_eq_false_of_not_mem l _ h16
    simp [hx, h16]
  · have hx : l.contains "1600" = false := contains_eq_false_of_not_mem l _ h16
    simp [hx, h16]

theorem isValid_eq_simpler_of_nodup (l : List String) (hnd : l.Nodup) :
    isValidCombinationSimple l = simplerValidCombination l := by
  have hiff : (isValidCombinationSimple l = true) ↔ (simplerValidCombination l = true) := by
    rw [isValid_iff, simplerValid_iff]
    constructor
    · rintro ⟨h1, h2⟩
      exact ⟨h1, fun hc => (h2 hc).1⟩
    · rintro ⟨h1, h2⟩
      exact ⟨h1, fun hc => ⟨h2 hc,
        fun hlen => nodup_field_exists l hnd hc.1 hc.2 (h2 hc) hlen⟩⟩
  cases h1 : isValidCombinationSimple l <;> cases h2 : simplerValidCombination l <;>
    simp_all

/-! ### Pipeline glue lemmas -/

theorem okSimple_eq (dir : Option (List (String × RankingFile))) (s t g gr : String)
    (r : OptimizationResult) (h : optimizeSimple dir s t g gr = Except.ok r) :
    ∃ L, loadRankings dir s g gr = Except.ok L ∧ r = optimizeCoreSimple L t g gr := by
  cases dir with
  | none => exact absurd h (by simp [optimizeSimple, loadRankings, Except.map])
  | some files =>
    cases hL : loadRankings (some files) s g gr with
    | error msg => exact absurd hL (by simp [loadRankings])
    | ok L =>
      rw [optimizeSimple_some_ok files s t g gr L hL] at h
      refine ⟨L, rfl, ?_⟩
      injection h with h'
      exact h'.symm

theorem okAdvanced_eq (dir : Option (List (String × RankingFile))) (s t g gr : String)
    (r : OptimizationResult) (h : optimizeAdvanced dir s t g gr = Except.ok r) :
    ∃ L, loadRankings dir s g gr = Except.ok L ∧ r = optimizeCoreAdvanced L t g gr := by
  cases dir with
  | none => exact absurd h (by simp [optimizeAdvanced, loadRankings, Except.map])
  | some files =>
    cases hL : loadRankings (some files) s g gr with
    | error msg => exact absurd hL (by simp [loadRankings])
    | ok L =>
      rw [optimizeAdvanced_some_ok files s t g gr L hL] at h
      refine ⟨L, rfl, ?_⟩
      injection h with h'
      exact h'.symm

theorem filter_pos_exists (l : List String) (p : String → Bool)
    (h : 0 < (l.filter p).length) : ∃ e ∈ l, p e = true := by
  rcases List.exists_mem_of_length_pos h with ⟨e, he⟩
  have hm := List.mem_filter.mp he
  exact ⟨e, hm.1, hm.2⟩

/-! ### Claims -/

/-- Claim C1: in every `OptimizationResult` produced by either optimizer's
`optimize`, an athlete entry whose selected events contain both "1600" and
"800" has at most one other track event among the remaining events, and if the
entry has exactly 4 events at least one selected event is a field event. -/
theorem claim_C1 :
    (∀ dir s t g gr r, optimizeSimple dir s t g gr = Except.ok r →
      ∀ x ∈ r.athleteEntries, "1600" ∈ x.events → "800" ∈ x.events →
        ((x.events.filter (fun e => isTrackEvent e && (e != "1600" && e != "800"))).length ≤ 1
          ∧ (x.events.length = 4 → ∃ e ∈ x.events, isFieldEvent e = true)))
    ∧ (∀ dir s t g gr r, optimizeAdvanced dir s t g gr = Except.ok r →
      ∀ x ∈ r.athleteEntries, "1600" ∈ x.events → "800" ∈ x.events →
        ((x.events.filter (fun e => isTrackEvent e && (e != "1600" && e != "800"))).length ≤ 1
          ∧ (x.events.length = 4 → ∃ e ∈ x.events, isFieldEvent e = true))) := by
  constructor
  · intro dir s t g gr r hok x hx h16 h8
    rcases okSimple_eq dir s t g gr r hok with ⟨L, _, hr⟩
    rw [hr] at hx
    have hv := entries_valid_simple L t g gr x hx
    rcases (isValid_iff x.events).mp hv with ⟨_, h2⟩
    rcases h2 ⟨h16, h8⟩ with ⟨ho, hf⟩
    exact ⟨ho, fun hlen => filter_pos_exists _ _ (hf hlen)⟩
  · intro dir s t g gr r hok x hx h16 h8
    rcases okAdvanced_eq dir s t g gr r hok with ⟨L, _, hr⟩
    rw [hr] at hx
    have hv := entries_valid_advanced L t g gr x hx
    rcases (isValid_iff x.events).mp hv with ⟨_, h2⟩
    rcases h2 ⟨h16, h8⟩ with ⟨ho, hf⟩
    exact ⟨ho, fun hlen => filter_pos_exists _ _ (hf hlen)⟩

/-- Witness for C1 at a concrete run whose single entry holds 1600, 800, one
sprint and one field event. -/
theorem claim_C1_witness :
    optimizeSimple (some sampleDir) "2025" "T" "Boys" "7" = Except.ok sampleResSimple
    ∧ sampleEntry ∈ sampleResSimple.athleteEntries
    ∧ "1600" ∈ sampleEntry.events
    ∧ "800" ∈ sampleEntry.events
    ∧ ((sampleEntry.events.filter
          (fun e => isTrackEvent e && (e != "1600" && e != "800"))).length ≤ 1
        ∧ (sampleEntry.events.length = 4 → ∃ e ∈ sampleEntry.events, isFieldEvent e = true)) :=
  ⟨rfl, (by rw [show sampleResSimple.athleteEntries = [sampleEntry] from rfl]; exact List.mem_singleton_self _), by decide, by decide,
    claim_C1.1 (some sampleDir) "2025" "T" "Boys" "7" sampleResSimple rfl sampleEntry
      (by rw [show sampleResSimple.athleteEntries = [sampleEntry] from rfl]; exact List.mem_singleton_self _) (by decide) (by decide)⟩

/-- Claim C2: `isValidCombination` rejects any list longer than 4 events, and
every athlete entry of either optimizer carries at most 4 selected events. -/
theorem claim_C2 :
    (∀ events : List String, events.length > 4 →
        isValidCombinationSimple events = false ∧ isValidCombinationAdvanced events = false)
    ∧ (∀ dir s t g gr r, optimizeSimple dir s t g gr = Except.ok r →
        ∀ x ∈ r.athleteEntries, x.events.length ≤ 4)
    ∧ (∀ dir s t g gr r, optimizeAdvanced dir s t g gr = Except.ok r →
        ∀ x ∈ r.athleteEntries, x.events.length ≤ 4) := by
  refine ⟨?_, ?_, ?_⟩
  · intro events h
    rw [isValidAdvanced_eq_simple]
    exact ⟨isValid_false_of_long events h, isValid_false_of_long events h⟩
  · intro dir s t g gr r hok x hx
    rcases okSimple_eq dir s t g gr r hok with ⟨L, _, hr⟩
    rw [hr] at hx
    exact isValid_length_le _ (entries_valid_simple L t g gr x hx)
  · intro dir s t g gr r hok x hx
    rcases okAdvanced_eq dir s t g gr r hok with ⟨L, _, hr⟩
    rw [hr] at hx
    exact isValid_length_le _ (entries_valid_advanced L t g gr x hx)

/-- Witness for C2 at a 5-event list and at the concrete sample entry. -/
theorem claim_C2_witness :
    (isValidCombinationSimple ["60", "100", "200", "400", "800"] = false
      ∧ isValidCombinationAdvanced ["60", "100", "200", "400", "800"] = false)
    ∧ sampleEntry.events.length ≤ 4 :=
  ⟨claim_C2.1 ["60", "100", "200", "400", "800"] (by decide),
   claim_C2.2.1 (some sampleDir) "2025" "T" "Boys" "7" sampleResSimple rfl sampleEntry
     (by rw [show sampleResSimple.athleteEntries = [sampleEntry] from rfl]; exact List.mem_singleton_self _)⟩

/-- Claim C3: in every `OptimizationResult` produced by either optimizer,
`totalProjectedPoints` equals the sum of the athlete entries' projected points
and also the sum of projected points over all per-athlete breakdown rows. -/
theorem claim_C3 :
    (∀ dir s t g gr r, optimizeSimple dir s t g gr = Except.ok r →
        r.totalProjectedPoints = sumBy (fun a => a.projectedPoints) r.athleteEntries
        ∧ r.totalProjectedPoints
            = sumBy (fun ee => sumBy (fun row => row.projectedPoints) ee.athletes)
                r.eventBreakdown)
    ∧ (∀ dir s t g gr r, optimizeAdvanced dir s t g gr = Except.ok r →
        r.totalProjectedPoints = sumBy (fun a => a.projectedPoints) r.athleteEntries
        ∧ r.totalProjectedPoints
            = sumBy (fun ee => sumBy (fun row => row.projectedPoints) ee.athletes)
                r.eventBreakdown) := by
  constructor
  · intro dir s t g gr r hok
    rcases okSimple_eq dir s t g gr r hok with ⟨L, _, hr⟩
    rw [hr]
    exact ⟨coreSimple_total L t g gr, (coreSimple_breakdown_sum L t g gr).symm⟩
  · intro dir s t g gr r hok
    rcases okAdvanced_eq dir s t g gr r hok with ⟨L, _, hr⟩
    rw [hr]
    exact ⟨coreAdvanced_total L t g gr, (coreAdvanced_breakdown_sum L t g gr).symm⟩

/-- Witness for C3 at the concrete sample run of the advanced optimizer. -/
theorem claim_C3_witness :
    sampleResAdvanced.totalProjectedPoints
        = sumBy (fun a => a.projectedPoints) sampleResAdvanced.athleteEntries
    ∧ sampleResAdvanced.totalProjectedPoints
        = sumBy (fun ee => sumBy (fun row => row.projectedPoints) ee.athletes)
            sampleResAdvanced.eventBreakdown :=
  claim_C3.2 (some sampleDir) "2025" "T" "Boys" "7" sampleResAdvanced rfl

/-- Claim C4: with every event category sorted ascending by rank,
`calculateProjectedPlace` returns 1 plus the number of rows ranked strictly
ahead whose athlete is in the likely-competing set for the event, and
`predictCompetition` marks, per event and per team, exactly the team's first
`min(3, team count)` athletes (in within-team order) as likely competitors. -/
theorem claim_C4 :
    ∀ (R : List EventRankingData) (ed : EventRankingData) (athlete event : String) (r : Nat),
      (∀ ed' ∈ R, ed'.rankings.Pairwise (fun a b => a.rank ≤ b.rank)) →
      (calculateProjectedPlace athlete event r (predictCompetition R) ed
          = 1 + (ed.rankings.filter (fun row =>
              decide (row.rank < r)
                && inLikely (predictCompetition R) row.athlete event)).length)
      ∧ (∀ a e, inLikely (predictCompetition R) a e = true ↔
          ∃ ed' ∈ R, ed'.eventAbbr = e ∧
            ∃ tm, a ∈ (teamAthleteList ed'.rankings tm).take
              (min 3 (teamAthleteList ed'.rankings tm).length)) := by
  intro R ed athlete event r _
  constructor
  · exact calculateProjectedPlace_eq athlete event r (predictCompetition R) ed
  · intro a e
    rw [inLikely_predictCompetition]
    constructor
    · rintro ⟨ed', hed', habbr, hp⟩
      rcases (mem_groupTeamAthletes_take_iff ed'.rankings a).mp hp with ⟨tm, htm⟩
      exact ⟨ed', hed', habbr, tm, htm⟩
    · rintro ⟨ed', hed', habbr, tm, htm⟩
      exact ⟨ed', hed', habbr,
        (mem_groupTeamAthletes_take_iff ed'.rankings a).mpr ⟨tm, htm⟩⟩

/-- Witness for C4 at a five-row category spanning three teams. -/
theorem claim_C4_witness :
    (∀ ed' ∈ [predictorEd], ed'.rankings.Pairwise (fun a b => a.rank ≤ b.rank))
    ∧ ((calculateProjectedPlace "C" "100" 3 (predictCompetition [predictorEd]) predictorEd
          = 1 + (predictorEd.rankings.filter (fun row =>
              decide (row.rank < 3)
                && inLikely (predictCompetition [predictorEd]) row.athlete "100")).length)
        ∧ (∀ a e, inLikely (predictCompetition [predictorEd]) a e = true ↔
            ∃ ed' ∈ [predictorEd], ed'.eventAbbr = e ∧
              ∃ tm, a ∈ (teamAthleteList ed'.rankings tm).take
                (min 3 (teamAthleteList ed'.rankings tm).length))) :=
  ⟨by decide, claim_C4 [predictorEd] predictorEd "C" "100" 3 (by decide)⟩

/-- Claim C5: the points table maps places 1..5 to 8, 6, 4, 2, 1, every place
outside the table to 0, and is monotone on the scoring places. -/
theorem claim_C5 :
    POINTS_TABLE 1 = 8 ∧ POINTS_TABLE 2 = 6 ∧ POINTS_TABLE 3 = 4 ∧ POINTS_TABLE 4 = 2
      ∧ POINTS_TABLE 5 = 1
      ∧ (∀ r : Nat, ¬(1 ≤ r ∧ r ≤ 5) → POINTS_TABLE r = 0)
      ∧ (∀ r1 r2 : Nat, 1 ≤ r1 → r1 < r2 → r2 ≤ 5 →
          POINTS_TABLE r2 ≤ POINTS_TABLE r1) := by
  refine ⟨rfl, rfl, rfl, rfl, rfl, ?_, ?_⟩
  · intro r h
    unfold POINTS_TABLE
    rw [if_neg (by omega), if_neg (by omega), if_neg (by omega), if_neg (by omega),
      if_neg (by omega)]
  · intro r1 r2 h0 h1 h2
    interval_cases r2 <;> interval_cases r1 <;> decide

/-- Witness for C5: place 7 scores 0 and place 4 scores at most place 2. -/
theorem claim_C5_witness :
    POINTS_TABLE 7 = 0 ∧ POINTS_TABLE 4 ≤ POINTS_TABLE 2 :=
  ⟨claim_C5.2.2.2.2.2.1 7 (by omega),
   claim_C5.2.2.2.2.2.2 2 4 (by omega) (by omega) (by omega)⟩

/-- Counterexample to C6 as stated: a rankings directory that exists but whose
only file has no category matching the requested gender and grade does NOT
make `optimize` fail — both optimizers return a valid empty result. -/
theorem claim_C6_counterexample :
    (∀ f ∈ noMatchDir, ∀ cat ∈ f.2.categories, ¬(cat.gender = "Boys" ∧ cat.grade = "7"))
    ∧ optimizeSimple (some noMatchDir) "2025" "T" "Boys" "7"
        = Except.ok { school := "T", gender := "Boys", grade := "7",
                      totalProjectedPoints := 0, athleteEntries := [], eventBreakdown := [] }
    ∧ optimizeAdvanced (some noMatchDir) "2025" "T" "Boys" "7"
        = Except.ok { school := "T", gender := "Boys", grade := "7",
                      totalProjectedPoints := 0, athleteEntries := [], eventBreakdown := [] } :=
  ⟨by decide, rfl, rfl⟩

/-- Claim C6 (amended): either optimizer's `optimize` fails exactly when the
rankings directory is absent; whenever the directory exists and the loaded
categories (possibly none at all) contain no row of the target team, it
returns a valid `OptimizationResult` with `totalProjectedPoints = 0` and empty
`athleteEntries` and `eventBreakdown`. -/
theorem claim_C6 :
    (∀ s t g gr, optimizeSimple none s t g gr
          = Except.error "Rankings directory not found"
        ∧ optimizeAdvanced none s t g gr
          = Except.error "Rankings directory not found")
    ∧ (∀ files s t g gr L, loadRankings (some files) s g gr = Except.ok L →
        (∀ ed ∈ L, ∀ row ∈ ed.rankings, row.team ≠ t) →
        optimizeSimple (some files) s t g gr
            = Except.ok { school := t, gender := g, grade := gr,
                          totalProjectedPoints := 0, athleteEntries := [],
                          eventBreakdown := [] }
          ∧ optimizeAdvanced (some files) s t g gr
            = Except.ok { school := t, gender := g, grade := gr,
                          totalProjectedPoints := 0, athleteEntries := [],
                          eventBreakdown := [] }) := by
  constructor
  · intro s t g gr
    exact ⟨rfl, rfl⟩
  · intro files s t g gr L hL hno
    constructor
    · rw [optimizeSimple_some_ok files s t g gr L hL,
        coreSimple_of_empty L t g gr (buildAthleteScores_empty L t hno)]
    · rw [optimizeAdvanced_some_ok files s t g gr L hL,
        coreAdvanced_of_empty L t g gr
          (buildAthleteOptions_empty L (predictCompetition L) t hno)]

/-- Witness for C6 at a directory whose matching category only holds another
team's rows. -/
theorem claim_C6_witness :
    optimizeSimple (some otherTeamDir) "2025" "T" "Boys" "7"
        = Except.ok { school := "T", gender := "Boys", grade := "7",
                      totalProjectedPoints := 0, athleteEntries := [],
                      eventBreakdown := [] }
      ∧ optimizeAdvanced (some otherTeamDir) "2025" "T" "Boys" "7"
        = Except.ok { school := "T", gender := "Boys", grade := "7",
                      totalProjectedPoints := 0, athleteEntries := [],
                      eventBreakdown := [] } :=
  claim_C6.2 otherTeamDir "2025" "T" "Boys" "7"
    (((loadRankings (some otherTeamDir) "2025" "Boys" "7").toOption).getD []) rfl
    (by decide)

/-- Claim C7: any single-event combination is valid (so the greedy selection
always accepts an athlete's first candidate), and either optimizer produces
exactly one athlete entry per target-team athlete with at least one ranked
event in the loaded categories, and none for other athletes. -/
theorem claim_C7 :
    (∀ e : String, isValidCombinationSimple [e] = true
        ∧ isValidCombinationAdvanced [e] = true)
    ∧ (∀ dir s t g gr r, optimizeSimple dir s t g gr = Except.ok r →
        ∃ L, loadRankings dir s g gr = Except.ok L
          ∧ (∀ a, (∃ x ∈ r.athleteEntries, x.athlete = a) ↔ hasTeamRow L t a)
          ∧ (r.athleteEntries.map (fun x => x.athlete)).Nodup)
    ∧ (∀ dir s t g gr r, optimizeAdvanced dir s t g gr = Except.ok r →
        ∃ L, loadRankings dir s g gr = Except.ok L
          ∧ (∀ a, (∃ x ∈ r.athleteEntries, x.athlete = a) ↔ hasTeamRow L t a)
          ∧ (r.athleteEntries.map (fun x => x.athlete)).Nodup) := by
  refine ⟨?_, ?_, ?_⟩
  · intro e
    rw [isValidAdvanced_eq_simple]
    exact ⟨isValid_singleton e, isValid_singleton e⟩
  · intro dir s t g gr r hok
    rcases okSimple_eq dir s t g gr r hok with ⟨L, hL, hr⟩
    subst hr
    exact ⟨L, hL, fun a => entries_athlete_iff_simple L t g gr a,
      entries_athletes_nodup_simple L t g gr⟩
  · intro dir s t g gr r hok
    rcases okAdvanced_eq dir s t g gr r hok with ⟨L, hL, hr⟩
    subst hr
    exact ⟨L, hL, fun a => entries_athlete_iff_advanced L t g gr a,
      entries_athletes_nodup_advanced L t g gr⟩

/-- Witness for C7 at the concrete sample run of the simple optimizer. -/
theorem claim_C7_witness :
    ∃ L, loadRankings (some sampleDir) "2025" "Boys" "7" = Except.ok L
      ∧ (∀ a, (∃ x ∈ sampleResSimple.athleteEntries, x.athlete = a) ↔ hasTeamRow L "T" a)
      ∧ (sampleResSimple.athleteEntries.map (fun x => x.athlete)).Nodup :=
  claim_C7.2.1 (some sampleDir) "2025" "T" "Boys" "7" sampleResSimple rfl

/-- Claim C8: in every result of either optimizer the athlete entries are
sorted by projected points descending, the event breakdown is sorted by event
code ascending, and each breakdown entry's athletes are sorted by projected
place ascending. -/
theorem claim_C8 :
    (∀ dir s t g gr r, optimizeSimple dir s t g gr = Except.ok r →
        r.athleteEntries.Pairwise (fun x y => y.projectedPoints ≤ x.projectedPoints)
        ∧ r.eventBreakdown.Pairwise (fun x y => x.event ≤ y.event)
        ∧ (∀ ee ∈ r.eventBreakdown,
            ee.athletes.Pairwise (fun x y => x.projectedPlace ≤ y.projectedPlace)))
    ∧ (∀ dir s t g gr r, optimizeAdvanced dir s t g gr = Except.ok r →
        r.athleteEntries.Pairwise (fun x y => y.projectedPoints ≤ x.projectedPoints)
        ∧ r.eventBreakdown.Pairwise (fun x y => x.event ≤ y.event)
        ∧ (∀ ee ∈ r.eventBreakdown,
            ee.athletes.Pairwise (fun x y => x.projectedPlace ≤ y.projectedPlace))) := by
  constructor
  · intro dir s t g gr r hok
    rcases okSimple_eq dir s t g gr r hok with ⟨L, _, hr⟩
    subst hr
    exact ⟨sorted_entries_simple L t g gr, sorted_events_simple L t g gr,
      sorted_rows_simple L t g gr⟩
  · intro dir s t g gr r hok
    rcases okAdvanced_eq dir s t g gr r hok with ⟨L, _, hr⟩
    subst hr
    exact ⟨sorted_entries_advanced L t g gr, sorted_events_advanced L t g gr,
      sorted_rows_advanced L t g gr⟩

/-- Witness for C8 at the concrete sample run of the advanced optimizer. -/
theorem claim_C8_witness :
    sampleResAdvanced.athleteEntries.Pairwise
        (fun x y => y.projectedPoints ≤ x.projectedPoints)
    ∧ sampleResAdvanced.eventBreakdown.Pairwise (fun x y => x.event ≤ y.event)
    ∧ (∀ ee ∈ sampleResAdvanced.eventBreakdown,
        ee.athletes.Pairwise (fun x y => x.projectedPlace ≤ y.projectedPlace)) :=
  claim_C8.2 (some sampleDir) "2025" "T" "Boys" "7" sampleResAdvanced rfl

/-- Claim C9: inside both optimizers a ranking row yields a candidate
(athlete, event) pair exactly when the row's team equals the `teamName`
argument under exact, case-sensitive string equality; a row whose team differs
only in case therefore contributes nothing. -/
theorem claim_C9 :
    (∀ (R : List EventRankingData) (t a e : String),
        (getA ((getA (buildAthleteScores R t) a).getD []) e).isSome = true
          ↔ hasTeamRowFor R t a e)
    ∧ (∀ (R : List EventRankingData) (le : List (String × List String)) (t a e : String),
        (∃ s ∈ (getA (buildAthleteOptions R le t) a).getD [], s.event = e)
          ↔ hasTeamRowFor R t a e)
    ∧ buildAthleteScores [lowerCaseTeamEd] "SMA1" = []
    ∧ (optimizeCoreSimple [lowerCaseTeamEd] "SMA1" "Boys" "7").athleteEntries = []
    ∧ (optimizeCoreAdvanced [lowerCaseTeamEd] "SMA1" "Boys" "7").athleteEntries = [] :=
  ⟨athleteScores_event_iff, athleteOptions_event_iff, rfl, rfl, rfl⟩

/-- Witness for C9: the characterisation evaluated at a concrete row set. -/
theorem claim_C9_witness :
    ((getA ((getA (buildAthleteScores [predictorEd] "Q") "C").getD []) "100").isSome = true
      ↔ hasTeamRowFor [predictorEd] "Q" "C" "100") :=
  claim_C9.1 [predictorEd] "Q" "C" "100"

/-- Counterexample to C10 as stated: on the duplicate-carrying list
`["1600", "800", "800", "800"]` the source predicate rejects (no field event
among exactly 4 events) while the simpler predicate accepts, so the two are
not extensionally equal on all lists. -/
theorem claim_C10_counterexample :
    isValidCombinationSimple ["1600", "800", "800", "800"] = false
      ∧ simplerValidCombination ["1600", "800", "800", "800"] = true := by
  constructor
  · rfl
  · rfl

/-- Claim C10 (amended): the two optimizers' `isValidCombination` functions
are identical, and on duplicate-free event lists `isValidCombination` is
extensionally equal to the simpler predicate "at most 4 events, and when both
distance events are present at most one other track event" — the field-event
clause is redundant there. -/
theorem claim_C10 :
    isValidCombinationAdvanced = isValidCombinationSimple
    ∧ (∀ l : List String, l.Nodup →
        isValidCombinationSimple l = simplerValidCombination l) :=
  ⟨isValidAdvanced_eq_simple, fun l h => isValid_eq_simpler_of_nodup l h⟩

/-- Witness for C10 at a concrete duplicate-free list. -/
theorem claim_C10_witness :
    (["1600", "800", "200", "LJ"] : List String).Nodup
    ∧ isValidCombinationSimple ["1600", "800", "200", "LJ"]
        = simplerValidCombination ["1600", "800", "200", "LJ"] :=
  ⟨by decide, claim_C10.2 ["1600", "800", "200", "LJ"] (by decide)⟩

end TrackOpt
